import Mathlib

/-!
# ChessBot: board state, move application and move generation

A shallow embedding of `include/Board.h`, `src/Board.cpp`,
`include/MoveGenerator.h` and of `Game::tryMakeMove` of `include/Game.h`.

* C++ `int` values are modelled by `Int`; `/` and `%` are the truncating
  operations of C++ (`Int.tdiv`, `Int.tmod`).
* `std::array<Piece, 64>` is modelled by `Fin 64 → Piece`.  A raw access
  `squares[i]` is only defined for `0 ≤ i < 64`; `readSquare` and `writeSquare`
  return `none` outside that range, and every function that performs such an
  access on a caller-supplied index lives in the `Option` monad.
* `std::vector<Move>` is modelled by `List Move` (push_back appends at the end).
* `std::string` is modelled by `List Char`; an access `s[i]` beyond the
  terminating zero is undefined and returns `none` as well.
-/

namespace ChessBot

/-! ## Data model (`Board.h`) -/

/-- Kind of a piece, `enum PieceType`. -/
inductive PieceType where
  | NONE
  | PAWN
  | KNIGHT
  | BISHOP
  | ROOK
  | QUEEN
  | KING
deriving DecidableEq, Repr

/-- Colour of a piece, `enum Color`. -/
inductive Color where
  | WHITE
  | BLACK
deriving DecidableEq, Repr

/-- A piece, `struct Piece`: a kind and a colour. -/
structure Piece where
  type : PieceType
  color : Color
deriving DecidableEq, Repr

/-- The default constructor `Piece()`: kind `NONE`, colour `WHITE`. -/
def Piece.empty : Piece := ⟨PieceType.NONE, Color.WHITE⟩

/-- The method `Piece::isEmpty`. -/
def Piece.isEmpty (p : Piece) : Bool := p.type == PieceType.NONE

/-- A move, `struct Move`. -/
structure Move where
  startSquare : Int
  targetSquare : Int
  promotionPiece : PieceType
deriving DecidableEq, Repr

/-- The constructor `Move(start, target)` with the default promotion `NONE`. -/
def Move.simple (start target : Int) : Move := ⟨start, target, PieceType.NONE⟩

/-- The class `Board`: its public castling flags and en-passant square and its
private array of squares, side to move and move history. -/
structure Board where
  squares : Fin 64 → Piece
  sideToMove : Color
  whiteCanCastleKingside : Bool
  whiteCanCastleQueenside : Bool
  blackCanCastleKingside : Bool
  blackCanCastleQueenside : Bool
  enPassantSquare : Int
  moveHistory : List Move

/-- The local record `struct MoveState` of `Board.cpp`. -/
structure MoveState where
  move : Move
  capturedPiece : Piece
  whiteCanCastleKingside : Bool
  whiteCanCastleQueenside : Bool
  blackCanCastleKingside : Bool
  blackCanCastleQueenside : Bool
  enPassantSquare : Int

/-- C++ integer division (truncation toward zero). -/
def cdiv (a b : Int) : Int := Int.tdiv a b

/-- C++ integer remainder (sign of the dividend). -/
def cmod (a b : Int) : Int := Int.tmod a b

/-- The static method `Board::squareFromCoords`. -/
def squareFromCoords (file rank : Int) : Int := rank * 8 + file

/-- The static method `Board::coordsFromSquare`: the pair (file, rank). -/
def coordsFromSquare (square : Int) : Int × Int := (cmod square 8, cdiv square 8)

/-- The array with slot `i` replaced by `p`; an index outside `0..63` names no
slot. -/
def setAt (sq : Fin 64 → Piece) (i : Int) (p : Piece) : Fin 64 → Piece :=
  fun j => if ((j.val : Nat) : Int) = i then p else sq j

/-- The slot `i` of the array for `0 ≤ i < 64`, and `Piece()` otherwise: the body
of `Board::getPieceAt` on the array alone. -/
def getAt (sq : Fin 64 → Piece) (i : Int) : Piece :=
  if h : 0 ≤ i ∧ i < 64 then sq ⟨i.toNat, by omega⟩ else Piece.empty

/-- A raw read `squares[i]`: defined only inside the array. -/
def readSquare (sq : Fin 64 → Piece) (i : Int) : Option Piece :=
  if 0 ≤ i ∧ i < 64 then some (getAt sq i) else none

/-- A raw write `squares[i] = p`: defined only inside the array. -/
def writeSquare (sq : Fin 64 → Piece) (i : Int) (p : Piece) : Option (Fin 64 → Piece) :=
  if 0 ≤ i ∧ i < 64 then some (setAt sq i p) else none

/-- The method `Board::getPieceAt`. -/
def Board.getPieceAt (b : Board) (square : Int) : Piece :=
  if 0 ≤ square ∧ square < 64 then getAt b.squares square else Piece.empty

/-- The method `Board::getSideToMove`. -/
def Board.getSideToMove (b : Board) : Color := b.sideToMove

/-! ## `Board::initializeStandardPosition` -/

/-- The pawn loop of `initializeStandardPosition`, for `file = 0 .. 7`. -/
def setUpPawns (sq : Fin 64 → Piece) : Fin 64 → Piece :=
  (List.range 8).foldl
    (fun s file =>
      setAt (setAt s (squareFromCoords file 1) ⟨PieceType.PAWN, Color.WHITE⟩)
        (squareFromCoords file 6) ⟨PieceType.PAWN, Color.BLACK⟩)
    sq

/-- The method `Board::initializeStandardPosition`.  Every index it writes is a
literal in `0..63`, so the writes are the total `setAt`. -/
def Board.initializeStandardPosition (_b : Board) : Board :=
  -- Clear the board
  let s : Fin 64 → Piece := fun _ => Piece.empty
  -- Set up pawns
  let s := setUpPawns s
  -- Set up white pieces
  let s := setAt s (squareFromCoords 0 0) ⟨PieceType.ROOK, Color.WHITE⟩
  let s := setAt s (squareFromCoords 1 0) ⟨PieceType.KNIGHT, Color.WHITE⟩
  let s := setAt s (squareFromCoords 2 0) ⟨PieceType.BISHOP, Color.WHITE⟩
  let s := setAt s (squareFromCoords 3 0) ⟨PieceType.QUEEN, Color.WHITE⟩
  let s := setAt s (squareFromCoords 4 0) ⟨PieceType.KING, Color.WHITE⟩
  let s := setAt s (squareFromCoords 5 0) ⟨PieceType.BISHOP, Color.WHITE⟩
  let s := setAt s (squareFromCoords 6 0) ⟨PieceType.KNIGHT, Color.WHITE⟩
  let s := setAt s (squareFromCoords 7 0) ⟨PieceType.ROOK, Color.WHITE⟩
  -- Set up black pieces
  let s := setAt s (squareFromCoords 0 7) ⟨PieceType.ROOK, Color.BLACK⟩
  let s := setAt s (squareFromCoords 1 7) ⟨PieceType.KNIGHT, Color.BLACK⟩
  let s := setAt s (squareFromCoords 2 7) ⟨PieceType.BISHOP, Color.BLACK⟩
  let s := setAt s (squareFromCoords 3 7) ⟨PieceType.QUEEN, Color.BLACK⟩
  let s := setAt s (squareFromCoords 4 7) ⟨PieceType.KING, Color.BLACK⟩
  let s := setAt s (squareFromCoords 5 7) ⟨PieceType.BISHOP, Color.BLACK⟩
  let s := setAt s (squareFromCoords 6 7) ⟨PieceType.KNIGHT, Color.BLACK⟩
  let s := setAt s (squareFromCoords 7 7) ⟨PieceType.ROOK, Color.BLACK⟩
  { squares := s
    sideToMove := Color.WHITE
    whiteCanCastleKingside := true
    whiteCanCastleQueenside := true
    blackCanCastleKingside := true
    blackCanCastleQueenside := true
    enPassantSquare := -1
    moveHistory := [] }

/-! ## `Board::makeMove` -/

/-- The block "Handle promotions" of `makeMove`. -/
def applyPromotion (sq : Fin 64 → Piece) (move : Move) : Option (Fin 64 → Piece) :=
  if move.promotionPiece ≠ PieceType.NONE then do
    let p ← readSquare sq move.targetSquare
    writeSquare sq move.targetSquare { p with type := move.promotionPiece }
  else
    pure sq

/-- One rook transfer of the block "Handle castling": when the king goes from
file 4 to file `kingFile` of rank `rankOffset`, the piece on `rookFrom` is copied
to `rookTo` and `rookFrom` is emptied. -/
def castleRook (sq : Fin 64 → Piece) (start target rankOffset kingFile rookTo rookFrom : Int) :
    Option (Fin 64 → Piece) :=
  if start = squareFromCoords 4 rankOffset ∧ target = squareFromCoords kingFile rankOffset then do
    let r ← readSquare sq (squareFromCoords rookFrom rankOffset)
    let s ← writeSquare sq (squareFromCoords rookTo rankOffset) r
    writeSquare s (squareFromCoords rookFrom rankOffset) Piece.empty
  else
    pure sq

/-- The block "Handle castling" of `makeMove`, entered when the moving piece is
a king. -/
def applyKingMove (b : Board) (movingPiece : Piece) (start target : Int) : Option Board := do
  let rankOffset : Int := if movingPiece.color = Color.WHITE then 0 else 7
  -- Kingside castling
  let s ← castleRook b.squares start target rankOffset 6 5 7
  -- Queenside castling
  let s ← castleRook s start target rankOffset 2 3 0
  -- Update castling rights
  if movingPiece.color = Color.WHITE then
    pure { b with squares := s, whiteCanCastleKingside := false, whiteCanCastleQueenside := false }
  else
    pure { b with squares := s, blackCanCastleKingside := false, blackCanCastleQueenside := false }

/-- The block "Update castling rights for rook moves" of `makeMove`, entered
when the moving piece is a rook. -/
def applyRookMove (b : Board) (movingPiece : Piece) (start : Int) : Board :=
  if movingPiece.color = Color.WHITE then
    if start = squareFromCoords 0 0 then { b with whiteCanCastleQueenside := false }
    else if start = squareFromCoords 7 0 then { b with whiteCanCastleKingside := false }
    else b
  else
    if start = squareFromCoords 0 7 then { b with blackCanCastleQueenside := false }
    else if start = squareFromCoords 7 7 then { b with blackCanCastleKingside := false }
    else b

/-- The block "Handle en passant captures" of `makeMove`; `b.enPassantSquare` is
still the value from before the call. -/
def applyEnPassantCapture (b : Board) (movingPiece : Piece) (target : Int) : Option Board :=
  if movingPiece.type = PieceType.PAWN ∧ target = b.enPassantSquare then do
    let capturedPawnRank : Int := if movingPiece.color = Color.WHITE then 4 else 3
    let capturedPawnSquare := squareFromCoords (cmod target 8) capturedPawnRank
    let s ← writeSquare b.squares capturedPawnSquare Piece.empty
    pure { b with squares := s }
  else
    pure b

/-- The block "Set en passant square for next move" of `makeMove`: the new value
of `enPassantSquare`. -/
def nextEnPassantSquare (movingPiece : Piece) (start target : Int) : Int :=
  if movingPiece.type = PieceType.PAWN then
    let startRank := cdiv start 8
    let targetRank := cdiv target 8
    if (targetRank - startRank).natAbs = 2 then
      let epRank := cdiv (startRank + targetRank) 2
      squareFromCoords (cmod start 8) epRank
    else -1
  else -1

/-- The method `Board::makeMove`.  The record `state` that the source fills in
"for undo" is a local variable: it is built and dropped, and only the move itself
is pushed on `moveHistory`. -/
def Board.makeMove (b : Board) (move : Move) : Option Board := do
  let start := move.startSquare
  let target := move.targetSquare
  -- Save current state for undo
  let _state : MoveState :=
    { move := move
      capturedPiece := b.getPieceAt target
      whiteCanCastleKingside := b.whiteCanCastleKingside
      whiteCanCastleQueenside := b.whiteCanCastleQueenside
      blackCanCastleKingside := b.blackCanCastleKingside
      blackCanCastleQueenside := b.blackCanCastleQueenside
      enPassantSquare := b.enPassantSquare }
  -- Get the moving piece
  let movingPiece := b.getPieceAt start
  -- Make the move
  let s ← writeSquare b.squares target movingPiece
  let s ← writeSquare s start Piece.empty
  -- Handle promotions
  let s ← applyPromotion s move
  let b1 : Board := { b with squares := s }
  -- Handle castling
  let b2 ← if movingPiece.type = PieceType.KING then applyKingMove b1 movingPiece start target
           else pure b1
  -- Update castling rights for rook moves
  let b3 := if movingPiece.type = PieceType.ROOK then applyRookMove b2 movingPiece start else b2
  -- Handle en passant captures
  let b4 ← applyEnPassantCapture b3 movingPiece target
  -- Set en passant square for next move, switch side to move, add move to history
  pure { b4 with
    enPassantSquare := nextEnPassantSquare movingPiece start target
    sideToMove := if b4.sideToMove = Color.WHITE then Color.BLACK else Color.WHITE
    moveHistory := b4.moveHistory ++ [move] }

/-! ## `Board::isInCheck` -/

/-- The king search of `isInCheck`: the first `i` in `0..63` whose piece is a
king of the given colour, or `-1` when the loop ends without a `break`. -/
def findKingSquare (b : Board) (color : Color) : Int :=
  match (List.range 64).find?
      (fun i => (b.getPieceAt (i : Int)).type = PieceType.KING ∧
        (b.getPieceAt (i : Int)).color = color) with
  | some i => (i : Int)
  | none => -1

/-- The method `Board::isInCheck`: after the king search both exits return
`false` (the attack detection is a placeholder in the source). -/
def Board.isInCheck (b : Board) (color : Color) : Bool :=
  let kingSquare := findKingSquare b color
  if kingSquare = -1 then
    false
  else
    false

/-! ## `MoveGenerator` (`MoveGenerator.h`) -/

/-- The member `bishopDirections`. -/
def bishopDirections : List (Int × Int) := [(1, 1), (1, -1), (-1, 1), (-1, -1)]

/-- The member `rookDirections`. -/
def rookDirections : List (Int × Int) := [(0, 1), (1, 0), (0, -1), (-1, 0)]

/-- The table `knightOffsets` of `generateKnightMoves`. -/
def knightOffsets : List (Int × Int) :=
  [(1, 2), (2, 1), (2, -1), (1, -2), (-1, -2), (-2, -1), (-2, 1), (-1, 2)]

/-- The table `kingOffsets` of `generateKingMoves`. -/
def kingOffsets : List (Int × Int) :=
  [(0, 1), (1, 1), (1, 0), (1, -1), (0, -1), (-1, -1), (-1, 0), (-1, 1)]

/-- The method `MoveGenerator::isSquareOnBoard`. -/
def isSquareOnBoard (file rank : Int) : Bool :=
  decide (file ≥ 0) && decide (file < 8) && decide (rank ≥ 0) && decide (rank < 8)

/-- The `while` loop of `generateSlidingMoves` for one direction, started at
`(newFile, newRank)`; the moves it pushes, in order.  `fuel` bounds the number of
iterations. -/
def slideRay (b : Board) (square : Int) (pieceColor : Color) (dx dy : Int) :
    Nat → Int → Int → List Move
  | 0, _, _ => []
  | fuel + 1, newFile, newRank =>
    if isSquareOnBoard newFile newRank then
      let targetSquare := squareFromCoords newFile newRank
      let targetPiece := b.getPieceAt targetSquare
      if targetPiece.isEmpty then
        -- Empty square, add move and continue
        Move.simple square targetSquare ::
          slideRay b square pieceColor dx dy fuel (newFile + dx) (newRank + dy)
      else if targetPiece.color ≠ pieceColor then
        -- Enemy piece, add capture and stop
        [Move.simple square targetSquare]
      else
        []
    else
      []

/-- The method `MoveGenerator::generateSlidingMoves`.  A ray leaves the board
after at most eight probes, hence the fuel. -/
def generateSlidingMoves (b : Board) (square : Int) (directions : List (Int × Int)) :
    List Move :=
  let (file, rank) := coordsFromSquare square
  let pieceColor := (b.getPieceAt square).color
  directions.foldl
    (fun moves d => moves ++ slideRay b square pieceColor d.1 d.2 8 (file + d.1) (rank + d.2))
    []

/-- The four promotion moves pushed by `generatePawnMoves`, or the single plain
move when `newRank` is not a last rank. -/
def pawnTargetMoves (square targetSquare newRank : Int) : List Move :=
  if newRank = 7 ∨ newRank = 0 then
    [⟨square, targetSquare, PieceType.QUEEN⟩, ⟨square, targetSquare, PieceType.ROOK⟩,
     ⟨square, targetSquare, PieceType.BISHOP⟩, ⟨square, targetSquare, PieceType.KNIGHT⟩]
  else
    [Move.simple square targetSquare]

/-- The pushes of `generatePawnMoves` (single push, then double push). -/
def pawnPushes (b : Board) (square file rank direction startingRank : Int) : List Move :=
  let newRank := rank + direction
  if isSquareOnBoard file newRank then
    let targetSquare := squareFromCoords file newRank
    if (b.getPieceAt targetSquare).isEmpty then
      pawnTargetMoves square targetSquare newRank ++
        (if rank = startingRank then
          let doubleRank := rank + 2 * direction
          let doubleSquare := squareFromCoords file doubleRank
          if (b.getPieceAt doubleSquare).isEmpty then [Move.simple square doubleSquare] else []
        else [])
    else []
  else []

/-- One iteration of the capture loop of `generatePawnMoves`, for the file offset
`df`. -/
def pawnCaptures (b : Board) (square file rank direction : Int) (pieceColor : Color)
    (df : Int) : List Move :=
  let newFile := file + df
  let newRank := rank + direction
  if isSquareOnBoard newFile newRank then
    let targetSquare := squareFromCoords newFile newRank
    let targetPiece := b.getPieceAt targetSquare
    -- Regular capture
    (if !targetPiece.isEmpty && decide (targetPiece.color ≠ pieceColor) then
      pawnTargetMoves square targetSquare newRank
    else []) ++
    -- En passant capture
    (if targetSquare = b.enPassantSquare then [Move.simple square targetSquare] else [])
  else []

/-- The method `MoveGenerator::generatePawnMoves`; the capture loop runs for
`df = -1` and `df = 1`. -/
def generatePawnMoves (b : Board) (square : Int) : List Move :=
  let (file, rank) := coordsFromSquare square
  let pieceColor := (b.getPieceAt square).color
  let direction : Int := if pieceColor = Color.WHITE then 1 else -1
  let startingRank : Int := if pieceColor = Color.WHITE then 1 else 6
  pawnPushes b square file rank direction startingRank ++
    pawnCaptures b square file rank direction pieceColor (-1) ++
    pawnCaptures b square file rank direction pieceColor 1

/-- The offset loop shared by `generateKnightMoves` and `generateKingMoves`: for
each offset, the move to the offset square when it is on the board and empty or
held by the other colour. -/
def offsetMoves (b : Board) (square file rank : Int) (pieceColor : Color)
    (offsets : List (Int × Int)) : List Move :=
  offsets.foldl
    (fun moves d =>
      let newFile := file + d.1
      let newRank := rank + d.2
      if isSquareOnBoard newFile newRank then
        let targetSquare := squareFromCoords newFile newRank
        let targetPiece := b.getPieceAt targetSquare
        if targetPiece.isEmpty || decide (targetPiece.color ≠ pieceColor) then
          moves ++ [Move.simple square targetSquare]
        else moves
      else moves)
    []

/-- The method `MoveGenerator::generateKnightMoves`. -/
def generateKnightMoves (b : Board) (square : Int) : List Move :=
  let (file, rank) := coordsFromSquare square
  let pieceColor := (b.getPieceAt square).color
  offsetMoves b square file rank pieceColor knightOffsets

/-- The method `MoveGenerator::generateBishopMoves`. -/
def generateBishopMoves (b : Board) (square : Int) : List Move :=
  generateSlidingMoves b square bishopDirections

/-- The method `MoveGenerator::generateRookMoves`. -/
def generateRookMoves (b : Board) (square : Int) : List Move :=
  generateSlidingMoves b square rookDirections

/-- The method `MoveGenerator::generateQueenMoves`. -/
def generateQueenMoves (b : Board) (square : Int) : List Move :=
  let bishopMoves := generateSlidingMoves b square bishopDirections
  let rookMoves := generateSlidingMoves b square rookDirections
  bishopMoves ++ rookMoves

/-- The block "Castling" of `generateKingMoves`. -/
def castlingMoves (b : Board) (square : Int) (pieceColor : Color) : List Move :=
  if pieceColor = Color.WHITE then
    (if b.whiteCanCastleKingside then
      (if (b.getPieceAt (squareFromCoords 5 0)).isEmpty &&
          (b.getPieceAt (squareFromCoords 6 0)).isEmpty then
        [Move.simple square (squareFromCoords 6 0)] else [])
    else []) ++
    (if b.whiteCanCastleQueenside then
      (if (b.getPieceAt (squareFromCoords 1 0)).isEmpty &&
          (b.getPieceAt (squareFromCoords 2 0)).isEmpty &&
          (b.getPieceAt (squareFromCoords 3 0)).isEmpty then
        [Move.simple square (squareFromCoords 2 0)] else [])
    else [])
  else
    (if b.blackCanCastleKingside then
      (if (b.getPieceAt (squareFromCoords 5 7)).isEmpty &&
          (b.getPieceAt (squareFromCoords 6 7)).isEmpty then
        [Move.simple square (squareFromCoords 6 7)] else [])
    else []) ++
    (if b.blackCanCastleQueenside then
      (if (b.getPieceAt (squareFromCoords 1 7)).isEmpty &&
          (b.getPieceAt (squareFromCoords 2 7)).isEmpty &&
          (b.getPieceAt (squareFromCoords 3 7)).isEmpty then
        [Move.simple square (squareFromCoords 2 7)] else [])
    else [])

/-- The method `MoveGenerator::generateKingMoves`. -/
def generateKingMoves (b : Board) (square : Int) : List Move :=
  let (file, rank) := coordsFromSquare square
  let pieceColor := (b.getPieceAt square).color
  offsetMoves b square file rank pieceColor kingOffsets ++ castlingMoves b square pieceColor

/-- The method `MoveGenerator::isLegalMove`: the move is made on a copy of the
board and the mover must not be in check there. -/
def isLegalMove (b : Board) (move : Move) : Option Bool := do
  let tempBoard ← b.makeMove move
  let movedColor := b.getSideToMove
  pure (!tempBoard.isInCheck movedColor)

/-- The `switch` of `generateLegalMoves`: the pseudo-legal moves of the piece on
`square`. -/
def pieceMovesAt (b : Board) (piece : Piece) (square : Int) : List Move :=
  match piece.type with
  | PieceType.PAWN => generatePawnMoves b square
  | PieceType.KNIGHT => generateKnightMoves b square
  | PieceType.BISHOP => generateBishopMoves b square
  | PieceType.ROOK => generateRookMoves b square
  | PieceType.QUEEN => generateQueenMoves b square
  | PieceType.KING => generateKingMoves b square
  | PieceType.NONE => []

/-- The body of the square loop of `generateLegalMoves`: the moves collected so
far, extended by the legal moves of the piece on `square`. -/
def legalMovesStep (b : Board) (moves : List Move) (square : Int) : Option (List Move) :=
  let piece := b.getPieceAt square
  if piece.isEmpty || decide (piece.color ≠ b.getSideToMove) then
    pure moves
  else do
    let pieceMoves := pieceMovesAt b piece square
    let kept ← pieceMoves.filterM (isLegalMove b)
    pure (moves ++ kept)

/-- The method `MoveGenerator::generateLegalMoves`, for `square = 0 .. 63`. -/
def generateLegalMoves (b : Board) : Option (List Move) :=
  (List.range 64).foldlM (fun moves (i : Nat) => legalMovesStep b moves (i : Int)) []

/-! ## FEN (`Board::loadFromFen`, `Board::toFen`)

A `std::string` is modelled by `List Char`, one Lean character per C++ `char`;
the texts considered are ASCII, where the value of a `char` is its code. -/

/-- The C function `isspace` ("C" locale): space, `\t`, `\n`, `\v`, `\f`, `\r`. -/
def isspace (c : Char) : Bool := c.toNat = 32 || (9 ≤ c.toNat && c.toNat ≤ 13)

/-- The C function `isdigit`. -/
def isdigit (c : Char) : Bool := 48 ≤ c.toNat && c.toNat ≤ 57

/-- The C function `isupper` ("C" locale). -/
def isupper (c : Char) : Bool := 65 ≤ c.toNat && c.toNat ≤ 90

/-- The C function `toupper` ("C" locale). -/
def toupper (c : Char) : Char :=
  if 97 ≤ c.toNat ∧ c.toNat ≤ 122 then Char.ofNat (c.toNat - 32) else c

/-- One extraction `fenStream >> word`: leading white space is skipped and the
characters up to the next white space form the word; the second component is the
rest of the stream.  On an exhausted stream the word stays empty. -/
def extractWord (stream : List Char) : List Char × List Char :=
  let s := stream.dropWhile isspace
  (s.takeWhile (fun c => !isspace c), s.dropWhile (fun c => !isspace c))

/-- The `switch (toupper(c))` of `loadFromFen`. -/
def pieceTypeOfLetter (c : Char) : PieceType :=
  if toupper c = 'P' then PieceType.PAWN
  else if toupper c = 'N' then PieceType.KNIGHT
  else if toupper c = 'B' then PieceType.BISHOP
  else if toupper c = 'R' then PieceType.ROOK
  else if toupper c = 'Q' then PieceType.QUEEN
  else if toupper c = 'K' then PieceType.KING
  else PieceType.NONE

/-- The body of the loop `for (char c : position)` of `loadFromFen` on the state
(squares, rank, file); the write `squares[squareFromCoords(file, rank)]` is a raw
array access. -/
def placeChar (st : (Fin 64 → Piece) × Int × Int) (c : Char) :
    Option ((Fin 64 → Piece) × Int × Int) :=
  let (sq, rank, file) := st
  if c = '/' then
    some (sq, rank - 1, 0)
  else if isdigit c then
    some (sq, rank, file + ((c.toNat : Int) - 48))
  else do
    let piece : Piece :=
      { type := pieceTypeOfLetter c, color := if isupper c then Color.WHITE else Color.BLACK }
    let sq ← writeSquare sq (squareFromCoords file rank) piece
    some (sq, rank, file + 1)

/-- The access `s[i]` of a `std::string`: the character at `i` below the length,
the terminating zero at `i = length`, and undefined beyond. -/
def stringAt (s : List Char) (i : Nat) : Option Int :=
  if i < s.length then some ((s.getD i (Char.ofNat 0)).toNat : Int)
  else if i = s.length then some 0
  else none

/-- The block "Parse en passant square" of `loadFromFen`. -/
def parseEnPassant (enPassant : List Char) : Option Int :=
  if enPassant = ['-'] then
    some (-1)
  else do
    let c0 ← stringAt enPassant 0
    let c1 ← stringAt enPassant 1
    let file := c0 - 97
    let rank := c1 - 49
    some (squareFromCoords file rank)

/-- The method `Board::loadFromFen`; every member of the board is overwritten. -/
def Board.loadFromFen (_b : Board) (fen : List Char) : Option Board := do
  let (position, s) := extractWord fen
  let (activeColor, s) := extractWord s
  let (castling, s) := extractWord s
  let (enPassant, s) := extractWord s
  let (_halfmove, s) := extractWord s
  let (_fullmove, _) := extractWord s
  -- Clear the board, parse the position
  let (sq, _, _) ← position.foldlM placeChar ((fun _ => Piece.empty), 7, 0)
  -- Parse en passant square
  let ep ← parseEnPassant enPassant
  some
    { squares := sq
      -- Parse active color
      sideToMove := if activeColor = ['w'] then Color.WHITE else Color.BLACK
      -- Parse castling rights
      whiteCanCastleKingside := castling.contains 'K'
      whiteCanCastleQueenside := castling.contains 'Q'
      blackCanCastleKingside := castling.contains 'k'
      blackCanCastleQueenside := castling.contains 'q'
      enPassantSquare := ep
      -- Clear move history
      moveHistory := [] }

/-- The text written by `fen << n` for a count `n`. -/
def countText (n : Nat) : List Char := (Nat.repr n).toList

/-- The `switch (piece.type)` of `toFen` followed by `toupper` for a white piece. -/
def pieceChar (piece : Piece) : Char :=
  let c :=
    match piece.type with
    | PieceType.PAWN => 'p'
    | PieceType.KNIGHT => 'n'
    | PieceType.BISHOP => 'b'
    | PieceType.ROOK => 'r'
    | PieceType.QUEEN => 'q'
    | PieceType.KING => 'k'
    | PieceType.NONE => '?'
  if piece.color = Color.WHITE then toupper c else c

/-- The body of the file loop of `toFen` on the state (text written so far for
the rank, emptyCount).  The source writes the count twice before a piece. -/
def fenFileStep (b : Board) (rank : Int) (st : List Char × Nat) (file : Nat) :
    List Char × Nat :=
  let (out, emptyCount) := st
  let piece := b.getPieceAt (squareFromCoords (file : Int) rank)
  if piece.isEmpty then
    (out, emptyCount + 1)
  else
    let (out, emptyCount) :=
      if emptyCount > 0 then (out ++ countText emptyCount ++ countText emptyCount, 0)
      else (out, emptyCount)
    (out ++ [pieceChar piece], emptyCount)

/-- The body of the rank loop of `toFen`: the text written for one rank. -/
def fenRank (b : Board) (rank : Nat) : List Char :=
  let (out, emptyCount) := (List.range 8).foldl (fenFileStep b (rank : Int)) ([], 0)
  let out := if emptyCount > 0 then out ++ countText emptyCount else out
  if rank > 0 then out ++ ['/'] else out

/-- The piece-placement field of `toFen`: ranks 7 down to 0. -/
def fenPlacement (b : Board) : List Char :=
  ((List.range 8).reverse.map (fenRank b)).flatten

/-- The castling field of `toFen`. -/
def fenCastling (b : Board) : List Char :=
  if b.whiteCanCastleKingside || b.whiteCanCastleQueenside ||
      b.blackCanCastleKingside || b.blackCanCastleQueenside then
    (if b.whiteCanCastleKingside then ['K'] else []) ++
    (if b.whiteCanCastleQueenside then ['Q'] else []) ++
    (if b.blackCanCastleKingside then ['k'] else []) ++
    (if b.blackCanCastleQueenside then ['q'] else [])
  else
    ['-']

/-- The conversion `static_cast<char>(n)` of an `int`, as a character code. -/
def charOfInt (n : Int) : Char := Char.ofNat (n % 256).toNat

/-- The en-passant field of `toFen`. -/
def fenEnPassant (b : Board) : List Char :=
  if b.enPassantSquare = -1 then
    ['-']
  else
    let (file, rank) := coordsFromSquare b.enPassantSquare
    [charOfInt (97 + file), charOfInt (49 + rank)]

/-- The method `Board::toFen`. -/
def Board.toFen (b : Board) : List Char :=
  fenPlacement b ++ [' ', if b.sideToMove = Color.WHITE then 'w' else 'b'] ++
    [' '] ++ fenCastling b ++ [' '] ++ fenEnPassant b ++ " 0 1".toList

/-! ## `Game::tryMakeMove` (`Game.h`) -/

/-- The loop of `tryMakeMove` over the legal moves: the returned flag and the
board of the game afterwards. -/
def tryMakeMoveLoop (b : Board) (move : Move) : List Move → Option (Bool × Board)
  | [] => some (false, b)
  | legalMove :: rest =>
    if legalMove.startSquare = move.startSquare ∧
        legalMove.targetSquare = move.targetSquare then do
      -- Legal move found, make it
      let b' ← b.makeMove move
      some (true, b')
    else
      tryMakeMoveLoop b move rest

/-- The method `Game::tryMakeMove`, on the board the game owns: the returned flag
and the board afterwards. -/
def tryMakeMove (b : Board) (move : Move) : Option (Bool × Board) := do
  let legalMoves ← generateLegalMoves b
  tryMakeMoveLoop b move legalMoves

/-! ## Auxiliary definitions for the statements and proofs -/

/-- The board that `makeMove` returns when each of its array accesses falls
inside the array: the blocks of `makeMove`, in the same order, on the total
accesses `setAt` and `getAt` (`makeMove_eq` proves the equality). -/
def makeMoveResult (b : Board) (move : Move) : Board :=
  let start := move.startSquare
  let target := move.targetSquare
  let mp := b.getPieceAt start
  let r : Int := if mp.color = Color.WHITE then 0 else 7
  let s := setAt (setAt b.squares target mp) start Piece.empty
  let s := if move.promotionPiece ≠ PieceType.NONE then
      setAt s target { getAt s target with type := move.promotionPiece } else s
  let s := if mp.type = PieceType.KING ∧ start = squareFromCoords 4 r ∧
        target = squareFromCoords 6 r then
      setAt (setAt s (squareFromCoords 5 r) (getAt s (squareFromCoords 7 r)))
        (squareFromCoords 7 r) Piece.empty else s
  let s := if mp.type = PieceType.KING ∧ start = squareFromCoords 4 r ∧
        target = squareFromCoords 2 r then
      setAt (setAt s (squareFromCoords 3 r) (getAt s (squareFromCoords 0 r)))
        (squareFromCoords 0 r) Piece.empty else s
  let s := if mp.type = PieceType.PAWN ∧ target = b.enPassantSquare then
      setAt s (squareFromCoords (target % 8) (if mp.color = Color.WHITE then 4 else 3))
        Piece.empty else s
  { squares := s
    sideToMove := if b.sideToMove = Color.WHITE then Color.BLACK else Color.WHITE
    whiteCanCastleKingside :=
      if mp.color = Color.WHITE ∧ (mp.type = PieceType.KING ∨
          (mp.type = PieceType.ROOK ∧ start ≠ 0 ∧ start = 7)) then false
      else b.whiteCanCastleKingside
    whiteCanCastleQueenside :=
      if mp.color = Color.WHITE ∧ (mp.type = PieceType.KING ∨
          (mp.type = PieceType.ROOK ∧ start = 0)) then false
      else b.whiteCanCastleQueenside
    blackCanCastleKingside :=
      if mp.color ≠ Color.WHITE ∧ (mp.type = PieceType.KING ∨
          (mp.type = PieceType.ROOK ∧ start ≠ 56 ∧ start = 63)) then false
      else b.blackCanCastleKingside
    blackCanCastleQueenside :=
      if mp.color ≠ Color.WHITE ∧ (mp.type = PieceType.KING ∨
          (mp.type = PieceType.ROOK ∧ start = 56)) then false
      else b.blackCanCastleQueenside
    enPassantSquare := nextEnPassantSquare mp start target
    moveHistory := b.moveHistory ++ [move] }

/-- The other colour. -/
def Color.opposite : Color → Color
  | Color.WHITE => Color.BLACK
  | Color.BLACK => Color.WHITE

/-- The home rank of a colour, `rankOffset` in `makeMove`: 0 for white, 7 for
black. -/
def homeRank (c : Color) : Int := if c = Color.WHITE then 0 else 7

/-- The kingside and queenside castling flags of a colour. -/
def castlingFlags (b : Board) (c : Color) : Bool × Bool :=
  match c with
  | Color.WHITE => (b.whiteCanCastleKingside, b.whiteCanCastleQueenside)
  | Color.BLACK => (b.blackCanCastleKingside, b.blackCanCastleQueenside)

/-- The moves of a list applied in order with `makeMove`. -/
def makeMoves (b : Board) (moves : List Move) : Option Board :=
  moves.foldlM Board.makeMove b

/-- Two boards agree in piece placement, side to move, the four castling flags
and the en-passant target (the move history is not compared). -/
def samePosition (p q : Board) : Prop :=
  p.squares = q.squares ∧ p.sideToMove = q.sideToMove ∧
    p.whiteCanCastleKingside = q.whiteCanCastleKingside ∧
    p.whiteCanCastleQueenside = q.whiteCanCastleQueenside ∧
    p.blackCanCastleKingside = q.blackCanCastleKingside ∧
    p.blackCanCastleQueenside = q.blackCanCastleQueenside ∧
    p.enPassantSquare = q.enPassantSquare

/-- A board with no piece, white to move, no castling right, no en-passant
target and no history; the example positions below are built on it. -/
def emptyBoard : Board :=
  { squares := fun _ => Piece.empty
    sideToMove := Color.WHITE
    whiteCanCastleKingside := false
    whiteCanCastleQueenside := false
    blackCanCastleKingside := false
    blackCanCastleQueenside := false
    enPassantSquare := -1
    moveHistory := [] }

/-- The standard starting position. -/
def startBoard : Board := emptyBoard.initializeStandardPosition

/-- White rook on a1 and a black piece `victim` on a2, white to move. -/
def rookFacing (victim : PieceType) : Board :=
  { emptyBoard with
    squares := setAt (setAt emptyBoard.squares 0 ⟨PieceType.ROOK, Color.WHITE⟩) 8
      ⟨victim, Color.BLACK⟩ }

/-- The board every `rookFacing` position becomes by the capture a1xa2. -/
def rookAfterCapture : Board :=
  { emptyBoard with
    squares := setAt emptyBoard.squares 8 ⟨PieceType.ROOK, Color.WHITE⟩
    sideToMove := Color.BLACK
    moveHistory := [Move.simple 0 8] }

/-- White rook on a1, black king on a8, every other square empty, black to move. -/
def rookChecksKing : Board :=
  { emptyBoard with
    squares := setAt (setAt emptyBoard.squares 0 ⟨PieceType.ROOK, Color.WHITE⟩) 56
      ⟨PieceType.KING, Color.BLACK⟩
    sideToMove := Color.BLACK }

/-- The four half-moves of fool's mate: f2-f3, e7-e5, g2-g4, Qd8-h4. -/
def foolsMateMoves : List Move :=
  [Move.simple 13 21, Move.simple 52 36, Move.simple 14 30, Move.simple 59 31]

/-- White pawn on d2, white knight on e2, en-passant target e3, white to move. -/
def staleEnPassant : Board :=
  { emptyBoard with
    squares := setAt (setAt emptyBoard.squares 11 ⟨PieceType.PAWN, Color.WHITE⟩) 12
      ⟨PieceType.KNIGHT, Color.WHITE⟩
    enPassantSquare := 20 }

/-- White pawn on d5 and black pawn on e5, en-passant target e6, white to move:
the position after the black double push e7-e5. -/
def enPassantReady : Board :=
  { emptyBoard with
    squares := setAt (setAt emptyBoard.squares 35 ⟨PieceType.PAWN, Color.WHITE⟩) 36
      ⟨PieceType.PAWN, Color.BLACK⟩
    enPassantSquare := 44 }

/-- White pawn on e5 with the en-passant target on the same square e5, white to
move. -/
def enPassantOnPawn : Board :=
  { emptyBoard with
    squares := setAt emptyBoard.squares 36 ⟨PieceType.PAWN, Color.WHITE⟩
    enPassantSquare := 36 }

/-- The 64 pieces of the canonical starting layout, square 0 first: the white
pieces R N B Q K B N R, eight white pawns, 32 empty squares, eight black pawns,
the black pieces r n b q k b n r. -/
def canonicalLayout : List Piece :=
  [⟨PieceType.ROOK, Color.WHITE⟩, ⟨PieceType.KNIGHT, Color.WHITE⟩,
    ⟨PieceType.BISHOP, Color.WHITE⟩, ⟨PieceType.QUEEN, Color.WHITE⟩,
    ⟨PieceType.KING, Color.WHITE⟩, ⟨PieceType.BISHOP, Color.WHITE⟩,
    ⟨PieceType.KNIGHT, Color.WHITE⟩, ⟨PieceType.ROOK, Color.WHITE⟩] ++
  List.replicate 8 ⟨PieceType.PAWN, Color.WHITE⟩ ++
  List.replicate 32 Piece.empty ++
  List.replicate 8 ⟨PieceType.PAWN, Color.BLACK⟩ ++
  [⟨PieceType.ROOK, Color.BLACK⟩, ⟨PieceType.KNIGHT, Color.BLACK⟩,
    ⟨PieceType.BISHOP, Color.BLACK⟩, ⟨PieceType.QUEEN, Color.BLACK⟩,
    ⟨PieceType.KING, Color.BLACK⟩, ⟨PieceType.BISHOP, Color.BLACK⟩,
    ⟨PieceType.KNIGHT, Color.BLACK⟩, ⟨PieceType.ROOK, Color.BLACK⟩]

/-- White king on e1 and white rook on h1 with the white kingside flag set, a
black knight on g3, black to move. -/
def rookEnPrise : Board :=
  { emptyBoard with
    squares := setAt (setAt (setAt emptyBoard.squares 4 ⟨PieceType.KING, Color.WHITE⟩) 7
      ⟨PieceType.ROOK, Color.WHITE⟩) 22 ⟨PieceType.KNIGHT, Color.BLACK⟩
    sideToMove := Color.BLACK
    whiteCanCastleKingside := true }

/-- A white pawn on e4 and nothing else. -/
def lonePawnE4 : Board :=
  { emptyBoard with squares := setAt emptyBoard.squares 28 ⟨PieceType.PAWN, Color.WHITE⟩ }

/-- White king on e1 and white rook on h1 with the white kingside flag set, f1
and g1 empty, a black rook on f8 with f2..f7 empty, white to move. -/
def castleThroughCheck : Board :=
  { emptyBoard with
    squares := setAt (setAt (setAt emptyBoard.squares 4 ⟨PieceType.KING, Color.WHITE⟩) 7
      ⟨PieceType.ROOK, Color.WHITE⟩) 61 ⟨PieceType.ROOK, Color.BLACK⟩
    whiteCanCastleKingside := true }

/-- A white pawn on a7 with the en-passant target on b8, white to move. -/
def pawnBelowEnPassant : Board :=
  { emptyBoard with
    squares := setAt emptyBoard.squares 48 ⟨PieceType.PAWN, Color.WHITE⟩
    enPassantSquare := 57 }

/-- A white pawn on a7 and a black rook on b8, white to move. -/
def pawnBelowRook : Board :=
  { emptyBoard with
    squares := setAt (setAt emptyBoard.squares 48 ⟨PieceType.PAWN, Color.WHITE⟩) 57
      ⟨PieceType.ROOK, Color.BLACK⟩ }

/-- Both squares of a move lie in 0..63. -/
def Move.inRange (m : Move) : Prop :=
  0 ≤ m.startSquare ∧ m.startSquare < 64 ∧ 0 ≤ m.targetSquare ∧ m.targetSquare < 64

/-- The list `generateLegalMoves` returns, in closed form: for each square with a
piece of the side to move, its pseudo-legal moves that pass the test of
`isLegalMove` on the board `makeMove` returns (`generateLegalMoves_eq` proves the
equality). -/
def legalMovesList (b : Board) : List Move :=
  (List.range 64).foldl
    (fun moves (i : Nat) =>
      if (b.getPieceAt (i : Int)).isEmpty ||
          decide ((b.getPieceAt (i : Int)).color ≠ b.getSideToMove) then moves
      else
        moves ++ (pieceMovesAt b (b.getPieceAt (i : Int)) (i : Int)).filter
          (fun m => !(makeMoveResult b m).isInCheck b.getSideToMove))
    []

/-- The `n`-th word (counted from 0) that `loadFromFen` extracts from the text. -/
def fenWord : Nat → List Char → List Char
  | 0, fen => (extractWord fen).1
  | n + 1, fen => fenWord n (extractWord fen).2

/-- A white pawn on e4 with the en-passant target on e5, white to move. -/
def enPassantAhead : Board :=
  { emptyBoard with
    squares := setAt emptyBoard.squares 28 ⟨PieceType.PAWN, Color.WHITE⟩
    enPassantSquare := 36 }

/-- The statements of `loadFromFen` that follow the placement loop ("Parse active
color" to "Clear move history"), on the array `sq` that the loop leaves: they read
the words of the text only, and assign every member other than `squares`. -/
def loadFromFenAfterLoop (sq : Fin 64 → Piece) (fen : List Char) : Option Board := do
  let ep ← parseEnPassant (fenWord 3 fen)
  some
    { squares := sq
      sideToMove := if fenWord 1 fen = ['w'] then Color.WHITE else Color.BLACK
      whiteCanCastleKingside := (fenWord 2 fen).contains 'K'
      whiteCanCastleQueenside := (fenWord 2 fen).contains 'Q'
      blackCanCastleKingside := (fenWord 2 fen).contains 'k'
      blackCanCastleQueenside := (fenWord 2 fen).contains 'q'
      enPassantSquare := ep
      moveHistory := [] }

/-- The position after g1-f3 and g8-f6 from the starting position. -/
def twoKnightsBoard : Board :=
  makeMoveResult (makeMoveResult startBoard (Move.simple 6 21)) (Move.simple 62 45)

/-- The direction in which a pawn of colour `c` advances: +1 rank for white, -1
for black. -/
def forward (c : Color) : Int := if c = Color.WHITE then 1 else -1

/-- The home rank index of the pawns of colour `c`: 1 for white, 6 for black. -/
def pawnHomeRank (c : Color) : Int := if c = Color.WHITE then 1 else 6

/-- The target `t` is one rank forward of `s` on the same file, on the board and
empty. -/
def isSinglePush (b : Board) (s t : Int) : Prop :=
  isSquareOnBoard (s % 8) (s / 8 + forward (b.getPieceAt s).color) = true ∧
    t = squareFromCoords (s % 8) (s / 8 + forward (b.getPieceAt s).color) ∧
    (b.getPieceAt t).isEmpty = true

/-- The target `t` is two ranks forward of `s` on the same file, `s` is on the
home rank of the pawn, and both the skipped square and `t` are empty. -/
def isDoublePush (b : Board) (s t : Int) : Prop :=
  s / 8 = pawnHomeRank (b.getPieceAt s).color ∧
    t = squareFromCoords (s % 8) (s / 8 + 2 * forward (b.getPieceAt s).color) ∧
    (b.getPieceAt (squareFromCoords (s % 8) (s / 8 + forward (b.getPieceAt s).color))).isEmpty
      = true ∧
    (b.getPieceAt t).isEmpty = true

/-- The target `t` is one rank forward of `s` on an adjacent file, on the board,
and holds a piece of the other colour or is the en-passant target. -/
def isPawnCapture (b : Board) (s t : Int) : Prop :=
  ∃ df : Int, (df = -1 ∨ df = 1) ∧
    isSquareOnBoard (s % 8 + df) (s / 8 + forward (b.getPieceAt s).color) = true ∧
    t = squareFromCoords (s % 8 + df) (s / 8 + forward (b.getPieceAt s).color) ∧
    (((b.getPieceAt t).isEmpty = false ∧ (b.getPieceAt t).color ≠ (b.getPieceAt s).color) ∨
      t = b.enPassantSquare)

/-! ## Lemmas on the array accesses and on the blocks of `makeMove` -/

theorem cdiv_eq_div {a : Int} (h : 0 ≤ a) {k : Int} (hk : 0 ≤ k) : cdiv a k = a / k := by
  unfold cdiv; exact Int.tdiv_eq_ediv h hk

theorem cmod_eq_mod {a : Int} (h : 0 ≤ a) {k : Int} (hk : 0 ≤ k) : cmod a k = a % k := by
  unfold cmod; exact Int.tmod_eq_emod h hk

theorem writeSquare_eq (sq : Fin 64 → Piece) (i : Int) (p : Piece) (h0 : 0 ≤ i) (h1 : i < 64) :
    writeSquare sq i p = some (setAt sq i p) := by
  simp [writeSquare, h0, h1]

theorem readSquare_eq (sq : Fin 64 → Piece) (i : Int) (h0 : 0 ≤ i) (h1 : i < 64) :
    readSquare sq i = some (getAt sq i) := by
  simp [readSquare, h0, h1]

theorem getAt_setAt (sq : Fin 64 → Piece) (i j : Int) (p : Piece) (h0 : 0 ≤ j) (h1 : j < 64) :
    getAt (setAt sq i p) j = if j = i then p else getAt sq j := by
  have hj : ((j.toNat : Nat) : Int) = j := Int.toNat_of_nonneg h0
  simp only [getAt, setAt, h0, h1, and_self, dite_true, hj]

theorem getPieceAt_eq (b : Board) (j : Int) (h0 : 0 ≤ j) (h1 : j < 64) :
    b.getPieceAt j = getAt b.squares j := by
  simp [Board.getPieceAt, h0, h1]

theorem applyPromotion_eq (sq : Fin 64 → Piece) (m : Move)
    (h0 : 0 ≤ m.targetSquare) (h1 : m.targetSquare < 64) :
    applyPromotion sq m =
      some (if m.promotionPiece ≠ PieceType.NONE then
        setAt sq m.targetSquare { getAt sq m.targetSquare with type := m.promotionPiece }
      else sq) := by
  unfold applyPromotion
  split_ifs with h
  · simp [readSquare_eq sq _ h0 h1, writeSquare_eq sq _ _ h0 h1]
  · rfl

theorem castleRook_eq (sq : Fin 64 → Piece) (start target r kf rt rf : Int)
    (hr : r = 0 ∨ r = 7) (hrt : 0 ≤ rt ∧ rt < 8) (hrf : 0 ≤ rf ∧ rf < 8) :
    castleRook sq start target r kf rt rf =
      some (if start = squareFromCoords 4 r ∧ target = squareFromCoords kf r then
        setAt (setAt sq (squareFromCoords rt r) (getAt sq (squareFromCoords rf r)))
          (squareFromCoords rf r) Piece.empty
      else sq) := by
  have a0 : 0 ≤ squareFromCoords rf r := by unfold squareFromCoords; omega
  have a1 : squareFromCoords rf r < 64 := by unfold squareFromCoords; omega
  have c0 : 0 ≤ squareFromCoords rt r := by unfold squareFromCoords; omega
  have c1 : squareFromCoords rt r < 64 := by unfold squareFromCoords; omega
  unfold castleRook
  split_ifs with h
  · simp [readSquare_eq sq _ a0 a1, writeSquare_eq _ _ _ c0 c1, writeSquare_eq _ _ _ a0 a1]
  · rfl

theorem castleRook_white (sq : Fin 64 → Piece) (start target kf rt rf : Int)
    (hrt : 0 ≤ rt ∧ rt < 8) (hrf : 0 ≤ rf ∧ rf < 8) :
    castleRook sq start target 0 kf rt rf =
      some (if start = squareFromCoords 4 0 ∧ target = squareFromCoords kf 0 then
        setAt (setAt sq (squareFromCoords rt 0) (getAt sq (squareFromCoords rf 0)))
          (squareFromCoords rf 0) Piece.empty
      else sq) :=
  castleRook_eq sq start target 0 kf rt rf (Or.inl rfl) hrt hrf

theorem castleRook_black (sq : Fin 64 → Piece) (start target kf rt rf : Int)
    (hrt : 0 ≤ rt ∧ rt < 8) (hrf : 0 ≤ rf ∧ rf < 8) :
    castleRook sq start target 7 kf rt rf =
      some (if start = squareFromCoords 4 7 ∧ target = squareFromCoords kf 7 then
        setAt (setAt sq (squareFromCoords rt 7) (getAt sq (squareFromCoords rf 7)))
          (squareFromCoords rf 7) Piece.empty
      else sq) :=
  castleRook_eq sq start target 7 kf rt rf (Or.inr rfl) hrt hrf

theorem applyKingMove_eq (b : Board) (mp : Piece) (start target : Int) :
    applyKingMove b mp start target = some
      { squares :=
          (fun s1 : Fin 64 → Piece =>
            if start = squareFromCoords 4 (if mp.color = Color.WHITE then 0 else 7) ∧
                target = squareFromCoords 2 (if mp.color = Color.WHITE then 0 else 7) then
              setAt (setAt s1 (squareFromCoords 3 (if mp.color = Color.WHITE then 0 else 7))
                  (getAt s1 (squareFromCoords 0 (if mp.color = Color.WHITE then 0 else 7))))
                (squareFromCoords 0 (if mp.color = Color.WHITE then 0 else 7)) Piece.empty
            else s1)
          (if start = squareFromCoords 4 (if mp.color = Color.WHITE then 0 else 7) ∧
              target = squareFromCoords 6 (if mp.color = Color.WHITE then 0 else 7) then
            setAt (setAt b.squares (squareFromCoords 5 (if mp.color = Color.WHITE then 0 else 7))
                (getAt b.squares (squareFromCoords 7 (if mp.color = Color.WHITE then 0 else 7))))
              (squareFromCoords 7 (if mp.color = Color.WHITE then 0 else 7)) Piece.empty
          else b.squares)
        sideToMove := b.sideToMove
        whiteCanCastleKingside := if mp.color = Color.WHITE then false else b.whiteCanCastleKingside
        whiteCanCastleQueenside := if mp.color = Color.WHITE then false else b.whiteCanCastleQueenside
        blackCanCastleKingside := if mp.color = Color.WHITE then b.blackCanCastleKingside else false
        blackCanCastleQueenside := if mp.color = Color.WHITE then b.blackCanCastleQueenside else false
        enPassantSquare := b.enPassantSquare
        moveHistory := b.moveHistory } := by
  unfold applyKingMove
  by_cases h : mp.color = Color.WHITE
  · simp only [h, if_true, castleRook_white _ _ _ 6 5 7 (by omega) (by omega),
      castleRook_white _ _ _ 2 3 0 (by omega) (by omega),
      Option.bind_eq_bind, Option.some_bind, Option.pure_def]
  · simp only [h, if_false, castleRook_black _ _ _ 6 5 7 (by omega) (by omega),
      castleRook_black _ _ _ 2 3 0 (by omega) (by omega),
      Option.bind_eq_bind, Option.some_bind, Option.pure_def]

theorem applyEnPassantCapture_eq (b : Board) (mp : Piece) (target : Int)
    (h0 : 0 ≤ target) :
    applyEnPassantCapture b mp target = some
      { b with squares :=
          if mp.type = PieceType.PAWN ∧ target = b.enPassantSquare then
            (setAt b.squares (squareFromCoords (target % 8)
              (if mp.color = Color.WHITE then 4 else 3)) Piece.empty)
          else b.squares } := by
  have hm0 : 0 ≤ target % 8 := by omega
  have hm1 : target % 8 < 8 := by omega
  have w4 := writeSquare_eq b.squares (squareFromCoords (target % 8) 4) Piece.empty
    (by unfold squareFromCoords; omega) (by unfold squareFromCoords; omega)
  have w3 := writeSquare_eq b.squares (squareFromCoords (target % 8) 3) Piece.empty
    (by unfold squareFromCoords; omega) (by unfold squareFromCoords; omega)
  unfold applyEnPassantCapture
  rw [cmod_eq_mod h0 (by omega)]
  split_ifs with h hc
  · simp only [w4, Option.bind_eq_bind, Option.some_bind, Option.pure_def]
  · simp only [w3, Option.bind_eq_bind, Option.some_bind, Option.pure_def]
  · rfl

/-- For a move whose start and target squares are inside the array, no array
access of `makeMove` is out of range and the call returns `makeMoveResult`. -/
theorem makeMove_eq (b : Board) (m : Move)
    (hs0 : 0 ≤ m.startSquare) (hs1 : m.startSquare < 64)
    (ht0 : 0 ≤ m.targetSquare) (ht1 : m.targetSquare < 64) :
    b.makeMove m = some (makeMoveResult b m) := by
  have e1 : squareFromCoords 0 0 = 0 := rfl
  have e2 : squareFromCoords 7 0 = 7 := rfl
  have e3 : squareFromCoords 0 7 = 56 := rfl
  have e4 : squareFromCoords 7 7 = 63 := rfl
  unfold Board.makeMove makeMoveResult
  simp only [writeSquare_eq _ _ _ ht0 ht1, writeSquare_eq _ _ _ hs0 hs1,
    applyPromotion_eq _ _ ht0 ht1, applyKingMove_eq, applyEnPassantCapture_eq _ _ _ ht0,
    Option.bind_eq_bind, Option.some_bind, Option.pure_def]
  generalize b.getPieceAt m.startSquare = mp
  rcases mp with ⟨ty, col⟩
  cases ty <;> cases col <;>
    simp [applyRookMove, e1, e2, e3, e4]
  all_goals split_ifs <;> first | rfl | (exfalso; omega) | simp_all

/-- The stub: `isInCheck` answers `false` on every board and for either colour. -/
theorem isInCheck_eq_false (b : Board) (color : Color) : b.isInCheck color = false := by
  unfold Board.isInCheck
  simp

/-! ## The claims -/

/-- Whatever black piece the rook takes on a2, `makeMove` returns the same
board: the captured piece is recorded nowhere in it. -/
theorem rookFacing_capture (victim : PieceType) :
    makeMoves (rookFacing victim) [Move.simple 0 8] = some rookAfterCapture := by
  have h := makeMove_eq (rookFacing victim) (Move.simple 0 8)
    (by decide) (by decide) (by decide) (by decide)
  have hmp : (rookFacing victim).getPieceAt 0 = ⟨PieceType.ROOK, Color.WHITE⟩ := by
    simp [rookFacing, getPieceAt_eq, getAt_setAt]
  have hsq : setAt (setAt (rookFacing victim).squares 8 ⟨PieceType.ROOK, Color.WHITE⟩) 0
      Piece.empty = setAt emptyBoard.squares 8 ⟨PieceType.ROOK, Color.WHITE⟩ := by
    funext j
    simp only [rookFacing, emptyBoard, setAt]
    split_ifs <;> first | rfl | omega
  simp only [makeMoves, List.foldlM, h, Option.bind_eq_bind, Option.some_bind, Option.pure_def]
  simp [makeMoveResult, Move.simple, hmp, hsq, rookAfterCapture]
  simp [rookFacing, emptyBoard, nextEnPassantSquare]

/-- C1: `makeMove` pushes only the move on the history and drops the state it
saved for undo, so no `undoMove` acting on the board can satisfy the claim: for
every candidate `undoMove`, one of the two positions "white rook a1, black knight
a2" and "white rook a1, black bishop a2" is not restored by one call of it after
the single move a1xa2. -/
theorem undoMove_cannot_restore (undoMove : Board → Board) :
    ∃ p : Board, (p = rookFacing PieceType.KNIGHT ∨ p = rookFacing PieceType.BISHOP) ∧
      ∃ q : Board, makeMoves p [Move.simple 0 8] = some q ∧
        ¬ samePosition (undoMove^[[Move.simple 0 8].length] q) p := by
  have hdiff : (rookFacing PieceType.KNIGHT).squares ≠ (rookFacing PieceType.BISHOP).squares := by
    intro h
    have h8 := congrFun h ⟨8, by decide⟩
    revert h8
    decide
  by_cases hk : samePosition (undoMove^[[Move.simple 0 8].length] rookAfterCapture)
      (rookFacing PieceType.KNIGHT)
  · refine ⟨_, Or.inr rfl, rookAfterCapture, rookFacing_capture _, ?_⟩
    intro hb
    exact hdiff (hk.1.symm.trans hb.1)
  · exact ⟨_, Or.inl rfl, rookAfterCapture, rookFacing_capture _, hk⟩

/-- C2: on the position produced by `initializeStandardPosition` (from any board)
`generateLegalMoves` returns a list of exactly 20 moves. -/
theorem generateLegalMoves_start_count (b : Board) :
    (generateLegalMoves b.initializeStandardPosition).map List.length = some 20 := by
  show (generateLegalMoves startBoard).map List.length = some 20
  decide!

/-- C3: on the board with a white rook on a1, the black king on a8 and nothing
else (so a2..a7 are empty and there is no other black king), `isInCheck BLACK`
returns false, where the claim requires true. -/
theorem isInCheck_rook_on_king_file :
    rookChecksKing.getPieceAt 0 = ⟨PieceType.ROOK, Color.WHITE⟩ ∧
      rookChecksKing.getPieceAt 56 = ⟨PieceType.KING, Color.BLACK⟩ ∧
      (∀ s ∈ [8, 16, 24, 32, 40, 48], (rookChecksKing.getPieceAt s).isEmpty = true) ∧
      (∀ i ∈ List.range 64, i ≠ 56 →
        rookChecksKing.getPieceAt (i : Int) ≠ ⟨PieceType.KING, Color.BLACK⟩) ∧
      rookChecksKing.isInCheck Color.BLACK = false := by
  decide!

/-- C4: after the fool's-mate moves f2-f3, e7-e5, g2-g4, Qd8-h4 from the starting
position, `isInCheck WHITE` returns false and `generateLegalMoves` returns 19
moves, where the claim requires true and the empty list. -/
theorem foolsMate_not_detected :
    (makeMoves startBoard foolsMateMoves).map (fun b => b.isInCheck Color.WHITE) = some false ∧
      ((makeMoves startBoard foolsMateMoves).bind generateLegalMoves).map List.length =
        some 19 := by
  decide!

/-- C5: for every position and every move whose start and target squares are in
0..63, `makeMove` returns a board, and its side to move is the opposite colour of
the side to move before the call, whatever stands on the start square. -/
theorem makeMove_flips_sideToMove (b : Board) (m : Move)
    (hs : 0 ≤ m.startSquare ∧ m.startSquare < 64)
    (ht : 0 ≤ m.targetSquare ∧ m.targetSquare < 64) :
    ∃ b', b.makeMove m = some b' ∧ b'.sideToMove = b.sideToMove.opposite := by
  refine ⟨makeMoveResult b m, makeMove_eq b m hs.1 hs.2 ht.1 ht.2, ?_⟩
  simp only [makeMoveResult]
  cases b.sideToMove <;> rfl

/-- Witness of C5: the move e2-e4 on the starting position. -/
theorem makeMove_flips_sideToMove_witness :
    ∃ b', startBoard.makeMove (Move.simple 12 28) = some b' ∧
      b'.sideToMove = startBoard.sideToMove.opposite :=
  makeMove_flips_sideToMove startBoard (Move.simple 12 28) (by decide) (by decide)

/-- C6: for every position and every move with start and target in 0..63, each of
the four castling flags that is false before `makeMove` is false in the board it
returns. -/
theorem makeMove_castling_flags_monotone (b : Board) (m : Move)
    (hs : 0 ≤ m.startSquare ∧ m.startSquare < 64)
    (ht : 0 ≤ m.targetSquare ∧ m.targetSquare < 64) :
    ∃ b', b.makeMove m = some b' ∧
      (b.whiteCanCastleKingside = false → b'.whiteCanCastleKingside = false) ∧
      (b.whiteCanCastleQueenside = false → b'.whiteCanCastleQueenside = false) ∧
      (b.blackCanCastleKingside = false → b'.blackCanCastleKingside = false) ∧
      (b.blackCanCastleQueenside = false → b'.blackCanCastleQueenside = false) := by
  refine ⟨makeMoveResult b m, makeMove_eq b m hs.1 hs.2 ht.1 ht.2, ?_, ?_, ?_, ?_⟩ <;>
    intro h <;> simp only [makeMoveResult, h, ite_self]

/-- Witness of C6: the king move a8-b8 on a board without castling rights. -/
theorem makeMove_castling_flags_monotone_witness :
    ∃ b', rookChecksKing.makeMove (Move.simple 56 57) = some b' ∧
      (rookChecksKing.whiteCanCastleKingside = false → b'.whiteCanCastleKingside = false) ∧
      (rookChecksKing.whiteCanCastleQueenside = false → b'.whiteCanCastleQueenside = false) ∧
      (rookChecksKing.blackCanCastleKingside = false → b'.blackCanCastleKingside = false) ∧
      (rookChecksKing.blackCanCastleQueenside = false → b'.blackCanCastleQueenside = false) :=
  makeMove_castling_flags_monotone rookChecksKing (Move.simple 56 57) (by decide) (by decide)

/-- C7: for every position and every move with start and target in 0..63, the
en-passant target of the board returned by `makeMove` is
`squareFromCoords (start mod 8) ((start div 8 + target div 8) / 2)` when the piece
on the start square is a pawn and the ranks of start and target differ by 2, and
is -1 otherwise, whatever the en-passant target was before. -/
theorem makeMove_enPassantSquare (b : Board) (m : Move)
    (hs : 0 ≤ m.startSquare ∧ m.startSquare < 64)
    (ht : 0 ≤ m.targetSquare ∧ m.targetSquare < 64) :
    ∃ b', b.makeMove m = some b' ∧
      b'.enPassantSquare =
        if (b.getPieceAt m.startSquare).type = PieceType.PAWN ∧
            |m.targetSquare / 8 - m.startSquare / 8| = 2 then
          squareFromCoords (m.startSquare % 8) ((m.startSquare / 8 + m.targetSquare / 8) / 2)
        else -1 := by
  refine ⟨makeMoveResult b m, makeMove_eq b m hs.1 hs.2 ht.1 ht.2, ?_⟩
  have h1 : cdiv m.startSquare 8 = m.startSquare / 8 := cdiv_eq_div hs.1 (by omega)
  have h2 : cdiv m.targetSquare 8 = m.targetSquare / 8 := cdiv_eq_div ht.1 (by omega)
  have h3 : cmod m.startSquare 8 = m.startSquare % 8 := cmod_eq_mod hs.1 (by omega)
  have h4 : cdiv (m.startSquare / 8 + m.targetSquare / 8) 2 =
      (m.startSquare / 8 + m.targetSquare / 8) / 2 := cdiv_eq_div (by omega) (by omega)
  have h5 : |m.targetSquare / 8 - m.startSquare / 8| = 2 ↔
      (m.targetSquare / 8 - m.startSquare / 8).natAbs = 2 := by
    rw [Int.abs_eq_natAbs]; omega
  simp only [makeMoveResult, nextEnPassantSquare, h1, h2, h3, h4, h5]
  split_ifs <;> simp_all

/-- Witness of C7: the double push e2-e4 on the starting position. -/
theorem makeMove_enPassantSquare_witness :
    ∃ b', startBoard.makeMove (Move.simple 12 28) = some b' ∧
      b'.enPassantSquare =
        if (startBoard.getPieceAt (Move.simple 12 28).startSquare).type = PieceType.PAWN ∧
            |(Move.simple 12 28).targetSquare / 8 - (Move.simple 12 28).startSquare / 8| = 2 then
          squareFromCoords ((Move.simple 12 28).startSquare % 8)
            (((Move.simple 12 28).startSquare / 8 + (Move.simple 12 28).targetSquare / 8) / 2)
        else -1 :=
  makeMove_enPassantSquare startBoard (Move.simple 12 28) (by decide) (by decide)

/-- C8, as stated, fails: with a stale en-passant target e3 and a white pawn
moving d2-e3 onto it, `makeMove` empties e5 (rank index 4 of the target file), and
the square one rank behind the target, e2, still holds the white knight. -/
theorem makeMove_enPassant_behind_not_emptied :
    staleEnPassant.getPieceAt 11 = ⟨PieceType.PAWN, Color.WHITE⟩ ∧
      staleEnPassant.enPassantSquare = 20 ∧
      (staleEnPassant.makeMove (Move.simple 11 20)).map (fun b' => b'.getPieceAt (20 - 8)) =
        some ⟨PieceType.KNIGHT, Color.WHITE⟩ := by
  decide!

/-- Two further inputs on which the conclusion of C8 fails: a move from a square
to itself leaves the target empty, and an en-passant capture that carries a
promotion kind leaves a piece of that kind, not a pawn, on the target. -/
theorem makeMove_enPassant_target_not_pawn :
    (enPassantOnPawn.makeMove (Move.simple 36 36)).map (fun b' => b'.getPieceAt 36) =
        some Piece.empty ∧
      (enPassantReady.makeMove ⟨35, 44, PieceType.QUEEN⟩).map (fun b' => b'.getPieceAt 44) =
        some ⟨PieceType.QUEEN, Color.WHITE⟩ := by
  decide!

/-- C8, amended: for every position and every move with start and target in
0..63 and start different from target, whose moving piece is a pawn and whose
target equals the current en-passant target and lies on rank index 5 for a white
pawn (rank index 2 for a black pawn), in the board returned by `makeMove` the
square one rank behind the target (target - 8 for white, target + 8 for black) is
empty and the target square holds a piece of the pawn's colour whose kind is the
move's promotion kind when that is not none and pawn otherwise. -/
theorem makeMove_enPassant_capture (b : Board) (m : Move)
    (hs : 0 ≤ m.startSquare ∧ m.startSquare < 64)
    (ht : 0 ≤ m.targetSquare ∧ m.targetSquare < 64)
    (hne : m.startSquare ≠ m.targetSquare)
    (hpawn : (b.getPieceAt m.startSquare).type = PieceType.PAWN)
    (hep : m.targetSquare = b.enPassantSquare)
    (hrank : m.targetSquare / 8 =
      if (b.getPieceAt m.startSquare).color = Color.WHITE then 5 else 2) :
    ∃ b', b.makeMove m = some b' ∧
      (b'.getPieceAt (if (b.getPieceAt m.startSquare).color = Color.WHITE
        then m.targetSquare - 8 else m.targetSquare + 8)).isEmpty = true ∧
      b'.getPieceAt m.targetSquare =
        ⟨if m.promotionPiece ≠ PieceType.NONE then m.promotionPiece else PieceType.PAWN,
          (b.getPieceAt m.startSquare).color⟩ := by
  refine ⟨makeMoveResult b m, makeMove_eq b m hs.1 hs.2 ht.1 ht.2, ?_⟩
  obtain ⟨s, t, pr⟩ := m
  simp only at hs ht hne hpawn hep hrank
  rcases hmp : b.getPieceAt s with ⟨ty, col⟩
  rw [hmp] at hpawn hrank
  simp only at hpawn hrank
  subst hpawn
  have hkey : ∀ sq : Fin 64 → Piece, ∀ i j : Int, ∀ p : Piece, 0 ≤ j → j < 64 →
      getAt (setAt sq i p) j = if j = i then p else getAt sq j := getAt_setAt
  cases col
  · -- white pawn: the target is on rank index 5
    simp only [if_true] at hrank
    have hb0 : 0 ≤ t - 8 := by omega
    have hb1 : t - 8 < 64 := by omega
    have hc : squareFromCoords (t % 8) 4 = t - 8 := by unfold squareFromCoords; omega
    simp only [makeMoveResult, hmp, ← hep, if_true, hc, true_and,
      getPieceAt_eq _ _ hb0 hb1, getPieceAt_eq _ _ ht.1 ht.2]
    constructor
    · simp [hkey _ _ _ _ hb0 hb1, Piece.isEmpty, Piece.empty]
    · have h1 : ¬ t = t - 8 := by omega
      have h2 : ¬ t = s := fun h => hne h.symm
      by_cases hpr : pr = PieceType.NONE <;>
        simp [hkey _ _ _ _ ht.1 ht.2, h1, h2, hpr]
  · -- black pawn: the target is on rank index 2
    simp only [if_false, reduceCtorEq] at hrank
    have hb0 : 0 ≤ t + 8 := by omega
    have hb1 : t + 8 < 64 := by omega
    have hc : squareFromCoords (t % 8) 3 = t + 8 := by unfold squareFromCoords; omega
    simp only [makeMoveResult, hmp, ← hep, if_true, if_false, reduceCtorEq, hc, true_and,
      getPieceAt_eq _ _ hb0 hb1, getPieceAt_eq _ _ ht.1 ht.2]
    constructor
    · simp [hkey _ _ _ _ hb0 hb1, Piece.isEmpty, Piece.empty]
    · have h1 : ¬ t = t + 8 := by omega
      have h2 : ¬ t = s := fun h => hne h.symm
      by_cases hpr : pr = PieceType.NONE <;>
        simp [hkey _ _ _ _ ht.1 ht.2, h1, h2, hpr]

/-- Witness of C8 amended: the white pawn on d5 takes en passant on e6. -/
theorem makeMove_enPassant_capture_witness :
    ∃ b', enPassantReady.makeMove (Move.simple 35 44) = some b' ∧
      (b'.getPieceAt (if (enPassantReady.getPieceAt (Move.simple 35 44).startSquare).color
          = Color.WHITE
        then (Move.simple 35 44).targetSquare - 8
        else (Move.simple 35 44).targetSquare + 8)).isEmpty = true ∧
      b'.getPieceAt (Move.simple 35 44).targetSquare =
        ⟨if (Move.simple 35 44).promotionPiece ≠ PieceType.NONE
          then (Move.simple 35 44).promotionPiece else PieceType.PAWN,
          (enPassantReady.getPieceAt (Move.simple 35 44).startSquare).color⟩ :=
  makeMove_enPassant_capture enPassantReady (Move.simple 35 44) (by decide) (by decide)
    (by decide) (by decide) (by decide) (by decide)

/-- C9: for every position whose e-square of the home rank of colour `c` (e1 for
white, e8 for black) holds the king of colour `c`, `makeMove` of the king from the
e-file to the g-file of that rank returns a board with the king on the g-square,
the e-square and the h-square empty, the f-square holding the piece that was on
the h-square, and both castling flags of `c` false; the move from the e-file to
the c-file returns a board with the king on the c-square, the e-square and the
a-square empty, the d-square holding the piece that was on the a-square, and both
castling flags of `c` false.  The moves are `Move(start, target)`, whose promotion
kind is none. -/
theorem makeMove_castling (b : Board) (c : Color)
    (hking : b.getPieceAt (squareFromCoords 4 (homeRank c)) = ⟨PieceType.KING, c⟩) :
    (∃ b', b.makeMove (Move.simple (squareFromCoords 4 (homeRank c))
          (squareFromCoords 6 (homeRank c))) = some b' ∧
        b'.getPieceAt (squareFromCoords 6 (homeRank c)) = ⟨PieceType.KING, c⟩ ∧
        (b'.getPieceAt (squareFromCoords 4 (homeRank c))).isEmpty = true ∧
        (b'.getPieceAt (squareFromCoords 7 (homeRank c))).isEmpty = true ∧
        b'.getPieceAt (squareFromCoords 5 (homeRank c)) =
          b.getPieceAt (squareFromCoords 7 (homeRank c)) ∧
        castlingFlags b' c = (false, false)) ∧
    (∃ b', b.makeMove (Move.simple (squareFromCoords 4 (homeRank c))
          (squareFromCoords 2 (homeRank c))) = some b' ∧
        b'.getPieceAt (squareFromCoords 2 (homeRank c)) = ⟨PieceType.KING, c⟩ ∧
        (b'.getPieceAt (squareFromCoords 4 (homeRank c))).isEmpty = true ∧
        (b'.getPieceAt (squareFromCoords 0 (homeRank c))).isEmpty = true ∧
        b'.getPieceAt (squareFromCoords 3 (homeRank c)) =
          b.getPieceAt (squareFromCoords 0 (homeRank c)) ∧
        castlingFlags b' c = (false, false)) := by
  have hkey : ∀ sq : Fin 64 → Piece, ∀ i j : Int, ∀ p : Piece, 0 ≤ j ∧ j < 64 →
      getAt (setAt sq i p) j = if j = i then p else getAt sq j :=
    fun sq i j p h => getAt_setAt sq i j p h.1 h.2
  have hget : ∀ (x : Board) (j : Int), 0 ≤ j ∧ j < 64 → x.getPieceAt j = getAt x.squares j :=
    fun x j h => getPieceAt_eq x j h.1 h.2
  cases c
  · have e : ∀ f : Int, squareFromCoords f (homeRank Color.WHITE) = f := by
      intro f; simp [squareFromCoords, homeRank]
    simp only [e] at hking ⊢
    constructor
    · refine ⟨_, makeMove_eq b _ (by decide) (by decide) (by decide) (by decide), ?_⟩
      simp [makeMoveResult, Move.simple, hking, squareFromCoords, castlingFlags, hget, hkey,
        Piece.isEmpty, Piece.empty]
    · refine ⟨_, makeMove_eq b _ (by decide) (by decide) (by decide) (by decide), ?_⟩
      simp [makeMoveResult, Move.simple, hking, squareFromCoords, castlingFlags, hget, hkey,
        Piece.isEmpty, Piece.empty]
  · have e : ∀ f : Int, squareFromCoords f (homeRank Color.BLACK) = 56 + f := by
      intro f; simp [squareFromCoords, homeRank]
    simp only [e] at hking ⊢
    norm_num at hking ⊢
    constructor
    · refine ⟨_, makeMove_eq b _ (by decide) (by decide) (by decide) (by decide), ?_⟩
      simp [makeMoveResult, Move.simple, hking, squareFromCoords, castlingFlags, hget, hkey,
        Piece.isEmpty, Piece.empty]
    · refine ⟨_, makeMove_eq b _ (by decide) (by decide) (by decide) (by decide), ?_⟩
      simp [makeMoveResult, Move.simple, hking, squareFromCoords, castlingFlags, hget, hkey,
        Piece.isEmpty, Piece.empty]

/-- Witness of C9: the white king of the starting position, on e1. -/
theorem makeMove_castling_witness :
    startBoard.getPieceAt 4 = ⟨PieceType.KING, Color.WHITE⟩ ∧
    (∃ b', startBoard.makeMove (Move.simple 4 6) = some b' ∧
        b'.getPieceAt 6 = ⟨PieceType.KING, Color.WHITE⟩ ∧
        (b'.getPieceAt 4).isEmpty = true ∧
        (b'.getPieceAt 7).isEmpty = true ∧
        b'.getPieceAt 5 = startBoard.getPieceAt 7 ∧
        castlingFlags b' Color.WHITE = (false, false)) ∧
    (∃ b', startBoard.makeMove (Move.simple 4 2) = some b' ∧
        b'.getPieceAt 2 = ⟨PieceType.KING, Color.WHITE⟩ ∧
        (b'.getPieceAt 4).isEmpty = true ∧
        (b'.getPieceAt 0).isEmpty = true ∧
        b'.getPieceAt 3 = startBoard.getPieceAt 0 ∧
        castlingFlags b' Color.WHITE = (false, false)) :=
  ⟨by decide, makeMove_castling startBoard Color.WHITE (by decide)⟩

/-- C10: for every position and every move with start and target in 0..63 whose
moving piece is a rook standing on a corner square of its own colour (a1 or h1
for white, a8 or h8 for black), in the board returned by `makeMove` the castling
flag of that colour and side is false and the other three flags are unchanged. -/
theorem makeMove_rook_leaves_corner (b : Board) (m : Move)
    (hs : 0 ≤ m.startSquare ∧ m.startSquare < 64)
    (ht : 0 ≤ m.targetSquare ∧ m.targetSquare < 64)
    (hrook : (b.getPieceAt m.startSquare).type = PieceType.ROOK)
    (hcorner : ((b.getPieceAt m.startSquare).color = Color.WHITE ∧
        (m.startSquare = 0 ∨ m.startSquare = 7)) ∨
      ((b.getPieceAt m.startSquare).color = Color.BLACK ∧
        (m.startSquare = 56 ∨ m.startSquare = 63))) :
    ∃ b', b.makeMove m = some b' ∧
      b'.whiteCanCastleQueenside = (if m.startSquare = 0 then false else b.whiteCanCastleQueenside) ∧
      b'.whiteCanCastleKingside = (if m.startSquare = 7 then false else b.whiteCanCastleKingside) ∧
      b'.blackCanCastleQueenside = (if m.startSquare = 56 then false else b.blackCanCastleQueenside) ∧
      b'.blackCanCastleKingside = (if m.startSquare = 63 then false else b.blackCanCastleKingside) := by
  refine ⟨makeMoveResult b m, makeMove_eq b m hs.1 hs.2 ht.1 ht.2, ?_⟩
  simp only [makeMoveResult, hrook]
  generalize (b.getPieceAt m.startSquare).color = col at hcorner
  rcases hcorner with ⟨hc, h | h⟩ | ⟨hc, h | h⟩ <;> subst hc <;> simp [h]

/-- Witness of C10: the white rook of the starting position leaves a1. -/
theorem makeMove_rook_leaves_corner_witness :
    ∃ b', startBoard.makeMove (Move.simple 0 16) = some b' ∧
      b'.whiteCanCastleQueenside =
        (if (Move.simple 0 16).startSquare = 0 then false else startBoard.whiteCanCastleQueenside) ∧
      b'.whiteCanCastleKingside =
        (if (Move.simple 0 16).startSquare = 7 then false else startBoard.whiteCanCastleKingside) ∧
      b'.blackCanCastleQueenside =
        (if (Move.simple 0 16).startSquare = 56 then false else startBoard.blackCanCastleQueenside) ∧
      b'.blackCanCastleKingside =
        (if (Move.simple 0 16).startSquare = 63 then false else startBoard.blackCanCastleKingside) :=
  makeMove_rook_leaves_corner startBoard (Move.simple 0 16) (by decide) (by decide)
    (by decide) (by decide)

/-! ## Lemmas on the move generator -/

theorem isSquareOnBoard_iff (file rank : Int) :
    isSquareOnBoard file rank = true ↔ 0 ≤ file ∧ file < 8 ∧ 0 ≤ rank ∧ rank < 8 := by
  simp [isSquareOnBoard, and_assoc]

theorem squareFromCoords_onBoard {file rank : Int} (h : isSquareOnBoard file rank = true) :
    0 ≤ squareFromCoords file rank ∧ squareFromCoords file rank < 64 := by
  rw [isSquareOnBoard_iff] at h
  unfold squareFromCoords
  omega

theorem coordsFromSquare_eq {square : Int} (h0 : 0 ≤ square) :
    coordsFromSquare square = (square % 8, square / 8) := by
  simp [coordsFromSquare, cmod_eq_mod h0, cdiv_eq_div h0]

/-- A property of the moves that a fold preserves holds of every move of the
result. -/
theorem foldl_moves_forall {α : Type} (P : Move → Prop) (f : List Move → α → List Move)
    (l : List α)
    (hf : ∀ acc, ∀ a ∈ l, (∀ m ∈ acc, P m) → ∀ m ∈ f acc a, P m) :
    ∀ init : List Move, (∀ m ∈ init, P m) → ∀ m ∈ l.foldl f init, P m := by
  induction l with
  | nil => intro init h; simpa using h
  | cons a t ih =>
    intro init h
    rw [List.foldl_cons]
    exact ih (fun acc x hx => hf acc x (List.mem_cons_of_mem _ hx)) _
      (hf init a (List.mem_cons_self _ _) h)

theorem slideRay_inRange (b : Board) (square : Int) (c : Color) (dx dy : Int)
    (h0 : 0 ≤ square) (h1 : square < 64) :
    ∀ (fuel : Nat) (f r : Int), ∀ m ∈ slideRay b square c dx dy fuel f r, m.inRange := by
  intro fuel
  induction fuel with
  | zero => intro f r m hm; simp [slideRay] at hm
  | succ n ih =>
    intro f r m hm
    unfold slideRay at hm
    simp only at hm
    split_ifs at hm with hb he hc
    · have hr := squareFromCoords_onBoard hb
      rcases List.mem_cons.mp hm with rfl | hm'
      · exact ⟨h0, h1, hr.1, hr.2⟩
      · exact ih _ _ m hm'
    · have hr := squareFromCoords_onBoard hb
      rcases List.mem_singleton.mp hm with rfl
      exact ⟨h0, h1, hr.1, hr.2⟩
    all_goals simp at hm

theorem generateSlidingMoves_inRange (b : Board) (square : Int) (dirs : List (Int × Int))
    (h0 : 0 ≤ square) (h1 : square < 64) :
    ∀ m ∈ generateSlidingMoves b square dirs, m.inRange := by
  unfold generateSlidingMoves
  simp only [coordsFromSquare_eq h0]
  apply foldl_moves_forall
  · intro acc d _ hacc m hm
    rcases List.mem_append.mp hm with h | h
    · exact hacc m h
    · exact slideRay_inRange b square _ _ _ h0 h1 _ _ _ m h
  · intro m hm; simp at hm

theorem pawnTargetMoves_inRange (square target newRank : Int)
    (h0 : 0 ≤ square) (h1 : square < 64) (t0 : 0 ≤ target) (t1 : target < 64) :
    ∀ m ∈ pawnTargetMoves square target newRank, m.inRange := by
  intro m hm
  unfold pawnTargetMoves at hm
  split_ifs at hm <;> simp [Move.simple] at hm <;>
    (rcases hm with rfl | rfl | rfl | rfl) <;> exact ⟨h0, h1, t0, t1⟩

theorem offsetMoves_inRange (b : Board) (square file rank : Int) (c : Color)
    (offsets : List (Int × Int)) (h0 : 0 ≤ square) (h1 : square < 64) :
    ∀ m ∈ offsetMoves b square file rank c offsets, m.inRange := by
  unfold offsetMoves
  apply foldl_moves_forall
  · intro acc d _ hacc m hm
    simp only at hm
    split_ifs at hm with hb hc
    · rcases List.mem_append.mp hm with h | h
      · exact hacc m h
      · have hr := squareFromCoords_onBoard hb
        rcases List.mem_singleton.mp h with rfl
        exact ⟨h0, h1, hr.1, hr.2⟩
    · exact hacc m hm
    · exact hacc m hm
  · intro m hm; simp at hm

theorem pawnPushes_inRange (b : Board) (square file rank direction startingRank : Int)
    (h0 : 0 ≤ square) (h1 : square < 64) (hf : 0 ≤ file ∧ file < 8)
    (hd : (direction = 1 ∧ startingRank = 1) ∨ (direction = -1 ∧ startingRank = 6)) :
    ∀ m ∈ pawnPushes b square file rank direction startingRank, m.inRange := by
  intro m hm
  unfold pawnPushes at hm
  simp only at hm
  split_ifs at hm with hb he hr hd2
  · rcases List.mem_append.mp hm with h | h
    · have hr := squareFromCoords_onBoard hb
      exact pawnTargetMoves_inRange _ _ _ h0 h1 hr.1 hr.2 m h
    · rcases List.mem_singleton.mp h with rfl
      refine ⟨h0, h1, ?_, ?_⟩ <;> simp only [Move.simple, squareFromCoords] <;> omega
  · rw [List.append_nil] at hm
    have hr := squareFromCoords_onBoard hb
    exact pawnTargetMoves_inRange _ _ _ h0 h1 hr.1 hr.2 m hm
  · rw [List.append_nil] at hm
    have hr := squareFromCoords_onBoard hb
    exact pawnTargetMoves_inRange _ _ _ h0 h1 hr.1 hr.2 m hm
  all_goals simp at hm

theorem pawnCaptures_inRange (b : Board) (square file rank direction : Int) (c : Color)
    (df : Int) (h0 : 0 ≤ square) (h1 : square < 64) :
    ∀ m ∈ pawnCaptures b square file rank direction c df, m.inRange := by
  intro m hm
  unfold pawnCaptures at hm
  simp only at hm
  by_cases hb : isSquareOnBoard (file + df) (rank + direction) = true
  · rw [if_pos hb] at hm
    have hr := squareFromCoords_onBoard hb
    rcases List.mem_append.mp hm with h | h
    · split_ifs at h
      · exact pawnTargetMoves_inRange _ _ _ h0 h1 hr.1 hr.2 m h
      · exact absurd h (List.not_mem_nil _)
    · split_ifs at h
      · rcases List.mem_singleton.mp h with rfl
        exact ⟨h0, h1, hr.1, hr.2⟩
      · exact absurd h (List.not_mem_nil _)
  · rw [if_neg hb] at hm
    exact absurd hm (List.not_mem_nil _)

theorem generatePawnMoves_inRange (b : Board) (square : Int) (h0 : 0 ≤ square)
    (h1 : square < 64) : ∀ m ∈ generatePawnMoves b square, m.inRange := by
  intro m hm
  unfold generatePawnMoves at hm
  simp only [coordsFromSquare_eq h0] at hm
  rcases List.mem_append.mp hm with h | h
  · rcases List.mem_append.mp h with h | h
    · refine pawnPushes_inRange b square _ _ _ _ h0 h1 (by omega) ?_ m h
      split_ifs <;> simp
    · exact pawnCaptures_inRange b square _ _ _ _ _ h0 h1 m h
  · exact pawnCaptures_inRange b square _ _ _ _ _ h0 h1 m h

theorem castlingMoves_inRange (b : Board) (square : Int) (c : Color)
    (h0 : 0 ≤ square) (h1 : square < 64) :
    ∀ m ∈ castlingMoves b square c, m.inRange := by
  intro m hm
  unfold castlingMoves at hm
  have key : ∀ t : Int, 0 ≤ t → t < 64 → (Move.simple square t).inRange :=
    fun t a b => ⟨h0, h1, a, b⟩
  split_ifs at hm <;> simp at hm <;>
    (rcases hm with rfl | rfl <;> exact key _ (by decide) (by decide))

theorem pieceMovesAt_inRange (b : Board) (piece : Piece) (square : Int) (h0 : 0 ≤ square)
    (h1 : square < 64) : ∀ m ∈ pieceMovesAt b piece square, m.inRange := by
  intro m hm
  unfold pieceMovesAt at hm
  split at hm
  · exact generatePawnMoves_inRange b square h0 h1 m hm
  · unfold generateKnightMoves at hm
    simp only [coordsFromSquare_eq h0] at hm
    exact offsetMoves_inRange b square _ _ _ _ h0 h1 m hm
  · exact generateSlidingMoves_inRange b square _ h0 h1 m hm
  · exact generateSlidingMoves_inRange b square _ h0 h1 m hm
  · unfold generateQueenMoves at hm
    rcases List.mem_append.mp hm with h | h <;>
      exact generateSlidingMoves_inRange b square _ h0 h1 m h
  · unfold generateKingMoves at hm
    simp only [coordsFromSquare_eq h0] at hm
    rcases List.mem_append.mp hm with h | h
    · exact offsetMoves_inRange b square _ _ _ _ h0 h1 m h
    · exact castlingMoves_inRange b square _ h0 h1 m h
  · simp at hm

theorem isLegalMove_eq (b : Board) (m : Move) (h : m.inRange) :
    isLegalMove b m = some (!(makeMoveResult b m).isInCheck b.getSideToMove) := by
  unfold isLegalMove
  rw [makeMove_eq b m h.1 h.2.1 h.2.2.1 h.2.2.2]
  rfl

theorem filterAuxM_eq_filter {α : Type} (f : α → Option Bool) (g : α → Bool) :
    ∀ (l acc : List α), (∀ x ∈ l, f x = some (g x)) →
      List.filterAuxM f l acc = some ((l.filter g).reverse ++ acc) := by
  intro l
  induction l with
  | nil => intro acc _; rfl
  | cons a t ih =>
    intro acc h
    have ha := h a (List.mem_cons_self _ _)
    have ht := ih (cond (g a) (a :: acc) acc) (fun x hx => h x (List.mem_cons_of_mem _ hx))
    simp only [List.filterAuxM, ha, Option.bind_eq_bind, Option.some_bind, ht]
    cases hg : g a <;> simp [List.filter, hg]

theorem filterM_eq_filter {α : Type} (f : α → Option Bool) (g : α → Bool) (l : List α)
    (h : ∀ x ∈ l, f x = some (g x)) : l.filterM f = some (l.filter g) := by
  unfold List.filterM
  rw [filterAuxM_eq_filter f g l [] h]
  simp

theorem foldlM_eq_foldl {α β : Type} (f : β → α → Option β) (F : β → α → β) (l : List α)
    (h : ∀ acc, ∀ a ∈ l, f acc a = some (F acc a)) :
    ∀ init, l.foldlM f init = some (l.foldl F init) := by
  induction l with
  | nil => intro init; rfl
  | cons a t ih =>
    intro init
    rw [List.foldlM_cons, h init a (List.mem_cons_self _ _)]
    exact ih (fun acc x hx => h acc x (List.mem_cons_of_mem _ hx)) _

/-- No array access of `generateLegalMoves` is out of range: on every board
it returns the list `legalMovesList`. -/
theorem generateLegalMoves_eq (b : Board) : generateLegalMoves b = some (legalMovesList b) := by
  unfold generateLegalMoves legalMovesList
  apply foldlM_eq_foldl
  intro acc i hi
  have hi' : i < 64 := List.mem_range.mp hi
  have h0 : (0 : Int) ≤ (i : Int) := by omega
  have h1 : (i : Int) < 64 := by omega
  unfold legalMovesStep
  simp only
  split_ifs with hskip
  · rfl
  · rw [filterM_eq_filter (isLegalMove b)
      (fun m => !(makeMoveResult b m).isInCheck b.getSideToMove) _
      (fun m hm => isLegalMove_eq b m (pieceMovesAt_inRange b _ _ h0 h1 m hm))]
    rfl

/-- Every move of `legalMovesList` has its squares in 0..63. -/
theorem legalMovesList_inRange (b : Board) : ∀ m ∈ legalMovesList b, m.inRange := by
  unfold legalMovesList
  apply foldl_moves_forall
  · intro acc i hi hacc m hm
    have hi' : i < 64 := List.mem_range.mp hi
    have h0 : (0 : Int) ≤ (i : Int) := by omega
    have h1 : (i : Int) < 64 := by omega
    simp only at hm
    split_ifs at hm with hskip
    · exact hacc m hm
    · rcases List.mem_append.mp hm with h | h
      · exact hacc m h
      · exact pieceMovesAt_inRange b _ _ h0 h1 m (List.mem_of_mem_filter h)
  · intro m hm; simp at hm

theorem tryMakeMoveLoop_eq (b : Board) (move : Move) :
    ∀ l : List Move, (∀ m ∈ l, m.inRange) →
      tryMakeMoveLoop b move l =
        if ∃ lm ∈ l, lm.startSquare = move.startSquare ∧ lm.targetSquare = move.targetSquare
        then some (true, makeMoveResult b move) else some (false, b) := by
  intro l
  induction l with
  | nil => intro _; simp [tryMakeMoveLoop]
  | cons a t ih =>
    intro h
    have ha := h a (List.mem_cons_self _ _)
    have iht := ih (fun x hx => h x (List.mem_cons_of_mem _ hx))
    unfold tryMakeMoveLoop
    by_cases hm : a.startSquare = move.startSquare ∧ a.targetSquare = move.targetSquare
    · have hin : move.inRange := by
        unfold Move.inRange at ha ⊢
        rw [← hm.1, ← hm.2]; exact ha
      have hex : ∃ lm ∈ a :: t, lm.startSquare = move.startSquare ∧
          lm.targetSquare = move.targetSquare := ⟨a, List.mem_cons_self _ _, hm⟩
      rw [if_pos hm, if_pos hex, makeMove_eq b move hin.1 hin.2.1 hin.2.2.1 hin.2.2.2]
      rfl
    · rw [if_neg hm, iht]
      by_cases hex : ∃ lm ∈ t, lm.startSquare = move.startSquare ∧
          lm.targetSquare = move.targetSquare
      · have hex' : ∃ lm ∈ a :: t, lm.startSquare = move.startSquare ∧
            lm.targetSquare = move.targetSquare := by
          obtain ⟨lm, hl, hp⟩ := hex
          exact ⟨lm, List.mem_cons_of_mem _ hl, hp⟩
        rw [if_pos hex, if_pos hex']
      · have hex' : ¬ ∃ lm ∈ a :: t, lm.startSquare = move.startSquare ∧
            lm.targetSquare = move.targetSquare := by
          rintro ⟨lm, hl, hp⟩
          rcases List.mem_cons.mp hl with rfl | hl'
          · exact hm hp
          · exact hex ⟨lm, hl', hp⟩
        rw [if_neg hex, if_neg hex']

/-- The four promotion moves from `square` to `target`, in the order in which
`generatePawnMoves` pushes them. -/
theorem pawnTargetMoves_lastRank (square target newRank : Int)
    (h : newRank = 7 ∨ newRank = 0) (t : Int) :
    (pawnTargetMoves square target newRank).filter (fun m => m.targetSquare = t) =
      if target = t then
        [⟨square, t, PieceType.QUEEN⟩, ⟨square, t, PieceType.ROOK⟩,
          ⟨square, t, PieceType.BISHOP⟩, ⟨square, t, PieceType.KNIGHT⟩]
      else [] := by
  unfold pawnTargetMoves
  rw [if_pos h]
  by_cases ht : target = t
  · subst ht; simp
  · simp [ht]

theorem pawnCaptures_lastRank (b : Board) (square file rank direction : Int) (c : Color)
    (df : Int) (h : rank + direction = 7 ∨ rank + direction = 0) (t : Int)
    (hep : t ≠ b.enPassantSquare) :
    (pawnCaptures b square file rank direction c df).filter (fun m => m.targetSquare = t) = [] ∨
      (t = squareFromCoords (file + df) (rank + direction) ∧
        (pawnCaptures b square file rank direction c df).filter (fun m => m.targetSquare = t) =
          [⟨square, t, PieceType.QUEEN⟩, ⟨square, t, PieceType.ROOK⟩,
            ⟨square, t, PieceType.BISHOP⟩, ⟨square, t, PieceType.KNIGHT⟩]) := by
  unfold pawnCaptures
  simp only
  by_cases hb : isSquareOnBoard (file + df) (rank + direction) = true
  · rw [if_pos hb, List.filter_append]
    have hplain : (if squareFromCoords (file + df) (rank + direction) = b.enPassantSquare then
        [Move.simple square (squareFromCoords (file + df) (rank + direction))] else []).filter
        (fun m => decide (m.targetSquare = t)) = [] := by
      split_ifs with he
      · have : ¬ squareFromCoords (file + df) (rank + direction) = t := fun h' =>
          hep (h'.symm.trans he)
        simp [Move.simple, this]
      · rfl
    rw [hplain, List.append_nil]
    split_ifs with hc
    · rw [pawnTargetMoves_lastRank _ _ _ h]
      split_ifs with ht
      · exact Or.inr ⟨ht.symm, rfl⟩
      · exact Or.inl rfl
    · exact Or.inl rfl
  · rw [if_neg hb]
    exact Or.inl rfl

theorem pawnPushes_lastRank (b : Board) (square file rank direction startingRank : Int)
    (h : rank + direction = 7 ∨ rank + direction = 0) (hstart : rank ≠ startingRank) (t : Int) :
    (pawnPushes b square file rank direction startingRank).filter
        (fun m => m.targetSquare = t) = [] ∨
      (t = squareFromCoords file (rank + direction) ∧
        (pawnPushes b square file rank direction startingRank).filter
            (fun m => m.targetSquare = t) =
          [⟨square, t, PieceType.QUEEN⟩, ⟨square, t, PieceType.ROOK⟩,
            ⟨square, t, PieceType.BISHOP⟩, ⟨square, t, PieceType.KNIGHT⟩]) := by
  unfold pawnPushes
  simp only
  by_cases hb : isSquareOnBoard file (rank + direction) = true
  · rw [if_pos hb]
    by_cases he : (b.getPieceAt (squareFromCoords file (rank + direction))).isEmpty = true
    · rw [if_pos he, if_neg hstart, List.append_nil, pawnTargetMoves_lastRank _ _ _ h]
      split_ifs with ht
      · exact Or.inr ⟨ht.symm, rfl⟩
      · exact Or.inl rfl
    · rw [if_neg he]
      exact Or.inl rfl
  · rw [if_neg hb]
    exact Or.inl rfl

/-! ## The claims C11 to C20 -/

/-- C11: the black knight on g3 takes the white rook on its home square h1 while
the white kingside flag is set; `makeMove` returns a board in which that flag is
still set, where the claim requires it to be false, and on that board
`generateLegalMoves` offers White the castling move e1-g1 although the rook is
gone. -/
theorem makeMove_rook_captured_at_home :
    rookEnPrise.getPieceAt 7 = ⟨PieceType.ROOK, Color.WHITE⟩ ∧
      rookEnPrise.getPieceAt 22 = ⟨PieceType.KNIGHT, Color.BLACK⟩ ∧
      rookEnPrise.whiteCanCastleKingside = true ∧
      (rookEnPrise.makeMove (Move.simple 22 7)).map
          (fun b' => (b'.getPieceAt 7, b'.whiteCanCastleKingside)) =
        some (⟨PieceType.KNIGHT, Color.BLACK⟩, true) ∧
      ((rookEnPrise.makeMove (Move.simple 22 7)).bind generateLegalMoves).map
          (fun l => decide (Move.simple 4 6 ∈ l)) = some true := by
  decide!

/-- C12: for the position `p` produced by `initializeStandardPosition`, loading
`toFen p` with `loadFromFen` (into any board) succeeds and serialising the loaded
board gives the text `toFen p` again, the standard FEN of the starting position. -/
theorem toFen_loadFromFen_start (b b' : Board) :
    (b'.loadFromFen b.initializeStandardPosition.toFen).map Board.toFen =
        some b.initializeStandardPosition.toFen ∧
      b.initializeStandardPosition.toFen =
        "rnbqkbnr/pppppppp/8/8/8/8/PPPPPPPP/RNBQKBNR w KQkq - 0 1".toList := by
  show (emptyBoard.loadFromFen startBoard.toFen).map Board.toFen = some startBoard.toFen ∧
    startBoard.toFen = "rnbqkbnr/pppppppp/8/8/8/8/PPPPPPPP/RNBQKBNR w KQkq - 0 1".toList
  decide!

/-- C13: on the board whose only piece is a white pawn on e4, `toFen` writes the
rank of the pawn as `44P3`: the run of four empty squares before the pawn is
written twice, and the group accounts for 12 squares, where the claim requires
`4P3`. -/
theorem toFen_writes_run_twice :
    lonePawnE4.toFen = "8/8/8/8/44P3/8/8/8 w - - 0 1".toList ∧
      fenRank lonePawnE4 3 = "44P3/".toList := by
  decide!

/-- C14: from every board, `initializeStandardPosition` produces one and the same
board: the canonical layout on the 64 squares, white to move, the four castling
flags set, no en-passant target and an empty move history. -/
theorem initializeStandardPosition_canonical (b : Board) :
    (∀ b' : Board, b'.initializeStandardPosition = b.initializeStandardPosition) ∧
      (List.finRange 64).map b.initializeStandardPosition.squares = canonicalLayout ∧
      b.initializeStandardPosition.sideToMove = Color.WHITE ∧
      b.initializeStandardPosition.whiteCanCastleKingside = true ∧
      b.initializeStandardPosition.whiteCanCastleQueenside = true ∧
      b.initializeStandardPosition.blackCanCastleKingside = true ∧
      b.initializeStandardPosition.blackCanCastleQueenside = true ∧
      b.initializeStandardPosition.enPassantSquare = -1 ∧
      b.initializeStandardPosition.moveHistory = [] := by
  refine ⟨fun _ => rfl, ?_, rfl, rfl, rfl, rfl, rfl, rfl, rfl⟩
  show (List.finRange 64).map startBoard.squares = canonicalLayout
  decide!

/-- C15: `getPieceAt` is total: for a square outside 0..63 it returns the empty
piece `Piece()`, whose kind is none, and for a square in 0..63 it returns the
content of that slot of the array. -/
theorem getPieceAt_total (b : Board) (square : Int) :
    (square < 0 ∨ 64 ≤ square →
      b.getPieceAt square = Piece.empty ∧ (b.getPieceAt square).type = PieceType.NONE) ∧
    (∀ i : Fin 64, square = (i.val : Int) → b.getPieceAt square = b.squares i) := by
  constructor
  · intro h
    have hn : ¬ (0 ≤ square ∧ square < 64) := by omega
    simp [Board.getPieceAt, hn, Piece.empty]
  · intro i hi
    have h0 : 0 ≤ square := by omega
    have h1 : square < 64 := by omega
    have hi' : square.toNat = i.val := by omega
    simp only [Board.getPieceAt, getAt, h0, h1, and_self, if_true, dite_true]
    congr 1
    exact Fin.ext hi'

/-- Witness of C15: squares -1, 64 and 4 of the starting position. -/
theorem getPieceAt_total_witness :
    startBoard.getPieceAt (-1) = Piece.empty ∧ startBoard.getPieceAt 64 = Piece.empty ∧
      startBoard.getPieceAt 4 = startBoard.squares 4 :=
  ⟨((getPieceAt_total startBoard (-1)).1 (by decide)).1,
    ((getPieceAt_total startBoard 64).1 (by decide)).1,
    (getPieceAt_total startBoard 4).2 4 (by decide)⟩

/-- C16: `squareFromCoords` and `coordsFromSquare` are inverse to each other on
the board: a file and a rank in 0..7 give a square in 0..63 whose coordinates are
that file and rank, and a square in 0..63 has a file and a rank in 0..7 from which
`squareFromCoords` gives the square back. -/
theorem squareFromCoords_coordsFromSquare (file rank square : Int)
    (hf : 0 ≤ file ∧ file < 8) (hr : 0 ≤ rank ∧ rank < 8) (hs : 0 ≤ square ∧ square < 64) :
    (coordsFromSquare (squareFromCoords file rank) = (file, rank) ∧
      0 ≤ squareFromCoords file rank ∧ squareFromCoords file rank < 64) ∧
    (0 ≤ (coordsFromSquare square).1 ∧ (coordsFromSquare square).1 < 8 ∧
      0 ≤ (coordsFromSquare square).2 ∧ (coordsFromSquare square).2 < 8 ∧
      squareFromCoords (coordsFromSquare square).1 (coordsFromSquare square).2 = square) := by
  have h1 : 0 ≤ rank * 8 + file := by omega
  simp only [coordsFromSquare, squareFromCoords, cmod_eq_mod h1 (by omega : (0:Int) ≤ 8),
    cdiv_eq_div h1 (by omega : (0:Int) ≤ 8), cmod_eq_mod hs.1 (by omega : (0:Int) ≤ 8),
    cdiv_eq_div hs.1 (by omega : (0:Int) ≤ 8), Prod.mk.injEq]
  omega

/-- Witness of C16: file 4 and rank 1 (e2), and square 12. -/
theorem squareFromCoords_coordsFromSquare_witness :
    (coordsFromSquare (squareFromCoords 4 1) = (4, 1) ∧
      0 ≤ squareFromCoords 4 1 ∧ squareFromCoords 4 1 < 64) ∧
    (0 ≤ (coordsFromSquare 12).1 ∧ (coordsFromSquare 12).1 < 8 ∧
      0 ≤ (coordsFromSquare 12).2 ∧ (coordsFromSquare 12).2 < 8 ∧
      squareFromCoords (coordsFromSquare 12).1 (coordsFromSquare 12).2 = 12) :=
  squareFromCoords_coordsFromSquare 4 1 12 (by decide) (by decide) (by decide)

/-- C17: on every board and for every submitted move, `generateLegalMoves`
returns a list; when some move of it has the start and target squares of the
submitted move, `tryMakeMove` returns true and the board becomes the one
`makeMove` of the submitted move returns on the old board; otherwise
`tryMakeMove` returns false and the board (squares, side to move, castling flags,
en-passant target, history) is the old board. -/
theorem tryMakeMove_spec (b : Board) (move : Move) :
    ∃ legalMoves, generateLegalMoves b = some legalMoves ∧
      ((∃ lm ∈ legalMoves, lm.startSquare = move.startSquare ∧
          lm.targetSquare = move.targetSquare) →
        ∃ b', b.makeMove move = some b' ∧ tryMakeMove b move = some (true, b')) ∧
      ((¬ ∃ lm ∈ legalMoves, lm.startSquare = move.startSquare ∧
          lm.targetSquare = move.targetSquare) →
        tryMakeMove b move = some (false, b)) := by
  have hloop := tryMakeMoveLoop_eq b move (legalMovesList b) (legalMovesList_inRange b)
  have htry : tryMakeMove b move = tryMakeMoveLoop b move (legalMovesList b) := by
    unfold tryMakeMove
    rw [generateLegalMoves_eq b]
    rfl
  refine ⟨legalMovesList b, generateLegalMoves_eq b, ?_, ?_⟩
  · intro hex
    obtain ⟨lm, hl, hp⟩ := hex
    have hin : move.inRange := by
      have ha := legalMovesList_inRange b lm hl
      unfold Move.inRange at ha ⊢
      rw [← hp.1, ← hp.2]; exact ha
    refine ⟨makeMoveResult b move, makeMove_eq b move hin.1 hin.2.1 hin.2.2.1 hin.2.2.2, ?_⟩
    rw [htry, hloop, if_pos ⟨lm, hl, hp⟩]
  · intro hex
    rw [htry, hloop, if_neg hex]

/-- Witness of C17: e2-e4 is accepted on the starting position, and e2-e5 is
rejected. -/
theorem tryMakeMove_spec_witness :
    (∃ b', startBoard.makeMove (Move.simple 12 28) = some b' ∧
        tryMakeMove startBoard (Move.simple 12 28) = some (true, b')) ∧
      tryMakeMove startBoard (Move.simple 12 36) = some (false, startBoard) := by
  constructor
  · obtain ⟨l, hl, hyes, _⟩ := tryMakeMove_spec startBoard (Move.simple 12 28)
    apply hyes
    have h : (generateLegalMoves startBoard).map (fun l => decide (∃ lm ∈ l,
        lm.startSquare = (Move.simple 12 28).startSquare ∧
        lm.targetSquare = (Move.simple 12 28).targetSquare)) = some true := by decide!
    rw [hl] at h
    simpa using h
  · obtain ⟨l, hl, _, hno⟩ := tryMakeMove_spec startBoard (Move.simple 12 36)
    apply hno
    have h : (generateLegalMoves startBoard).map (fun l => decide (∃ lm ∈ l,
        lm.startSquare = (Move.simple 12 36).startSquare ∧
        lm.targetSquare = (Move.simple 12 36).targetSquare)) = some false := by decide!
    rw [hl] at h
    simpa using h

/-- C18: with the white king on e1, the white rook on h1, the white kingside flag
set, f1 and g1 empty and a black rook on f8 attacking f1 along the empty f-file,
white to move, `generateLegalMoves` returns a list that contains the castling move
e1-g1, where the claim requires it to be absent. -/
theorem generateLegalMoves_castles_through_check :
    castleThroughCheck.sideToMove = Color.WHITE ∧
      castleThroughCheck.getPieceAt 4 = ⟨PieceType.KING, Color.WHITE⟩ ∧
      castleThroughCheck.getPieceAt 7 = ⟨PieceType.ROOK, Color.WHITE⟩ ∧
      castleThroughCheck.whiteCanCastleKingside = true ∧
      castleThroughCheck.getPieceAt 61 = ⟨PieceType.ROOK, Color.BLACK⟩ ∧
      (∀ s ∈ [5, 6, 13, 21, 29, 37, 45, 53], (castleThroughCheck.getPieceAt s).isEmpty = true) ∧
      (generateLegalMoves castleThroughCheck).map (fun l => decide (Move.simple 4 6 ∈ l)) =
        some true := by
  decide!

/-- C19, as stated, fails: for the white pawn on a7 with the en-passant target on
b8, `generatePawnMoves` produces exactly one move to b8 and its promotion kind is
none; and with a black rook on b8 that is also the en-passant target it produces
five moves to b8. -/
theorem generatePawnMoves_enPassant_last_rank :
    pawnBelowEnPassant.getPieceAt 48 = ⟨PieceType.PAWN, Color.WHITE⟩ ∧
      (generatePawnMoves pawnBelowEnPassant 48).filter (fun m => m.targetSquare = 57) =
        [Move.simple 48 57] ∧
      ((generatePawnMoves { pawnBelowRook with enPassantSquare := 57 } 48).filter
        (fun m => m.targetSquare = 57)).length = 5 := by
  decide!

/-- C19, amended: for every position and every pawn one rank before its last rank
(a white pawn on rank index 6, a black pawn on rank index 1), for each target
square other than the en-passant target, the moves that `generatePawnMoves`
produces to that target are either none or exactly four, one each with promotion
kind queen, rook, bishop and knight (and none with promotion kind none). -/
theorem generatePawnMoves_promotion (b : Board) (square target : Int)
    (hs : 0 ≤ square ∧ square < 64)
    (hpawn : (b.getPieceAt square).type = PieceType.PAWN)
    (hrank : square / 8 = if (b.getPieceAt square).color = Color.WHITE then 6 else 1)
    (hep : target ≠ b.enPassantSquare) :
    (generatePawnMoves b square).filter (fun m => m.targetSquare = target) = [] ∨
      (generatePawnMoves b square).filter (fun m => m.targetSquare = target) =
        [⟨square, target, PieceType.QUEEN⟩, ⟨square, target, PieceType.ROOK⟩,
          ⟨square, target, PieceType.BISHOP⟩, ⟨square, target, PieceType.KNIGHT⟩] := by
  have _ := hpawn
  unfold generatePawnMoves
  simp only [coordsFromSquare_eq hs.1, List.filter_append]
  have hlast : square / 8 + (if (b.getPieceAt square).color = Color.WHITE then (1 : Int) else -1)
        = 7 ∨
      square / 8 + (if (b.getPieceAt square).color = Color.WHITE then (1 : Int) else -1) = 0 := by
    split_ifs at hrank ⊢ <;> omega
  have hstart : square / 8 ≠
      (if (b.getPieceAt square).color = Color.WHITE then (1 : Int) else 6) := by
    split_ifs at hrank ⊢ <;> omega
  rcases pawnPushes_lastRank b square (square % 8) (square / 8) _ _ hlast hstart target
    with h0 | ⟨t0, h0⟩ <;>
  rcases pawnCaptures_lastRank b square (square % 8) (square / 8) _
      (b.getPieceAt square).color (-1) hlast target hep with h1 | ⟨t1, h1⟩ <;>
  rcases pawnCaptures_lastRank b square (square % 8) (square / 8) _
      (b.getPieceAt square).color 1 hlast target hep with h2 | ⟨t2, h2⟩ <;>
  rw [h0, h1, h2]
  all_goals first
    | (left; rfl)
    | (right; rfl)
    | (exfalso; unfold squareFromCoords at *; omega)

/-- Witness of C19 amended: the white pawn on a7 takes the black rook on b8. -/
theorem generatePawnMoves_promotion_witness :
    (generatePawnMoves pawnBelowRook 48).filter (fun m => m.targetSquare = 57) = [] ∨
      (generatePawnMoves pawnBelowRook 48).filter (fun m => m.targetSquare = 57) =
        [⟨48, 57, PieceType.QUEEN⟩, ⟨48, 57, PieceType.ROOK⟩,
          ⟨48, 57, PieceType.BISHOP⟩, ⟨48, 57, PieceType.KNIGHT⟩] :=
  generatePawnMoves_promotion pawnBelowRook 48 57 (by decide) (by decide) (by decide)
    (by decide)

/-- C20: `makeMove` is total over in-range moves: for every board, whatever its
en-passant value, and every move whose start and target are in 0..63, legal or
not, the call returns a board, that is, none of its raw array accesses (start,
target, the castling rook squares, the square of the pawn captured en passant)
falls outside 0..63. -/
theorem makeMove_total (b : Board) (m : Move)
    (hs : 0 ≤ m.startSquare ∧ m.startSquare < 64)
    (ht : 0 ≤ m.targetSquare ∧ m.targetSquare < 64) :
    ∃ b', b.makeMove m = some b' :=
  ⟨makeMoveResult b m, makeMove_eq b m hs.1 hs.2 ht.1 ht.2⟩

/-- Witness of C20: the move a1-h8 with a promotion kind on the board whose
en-passant target is h8. -/
theorem makeMove_total_witness :
    ∃ b', ({ startBoard with enPassantSquare := 63 } : Board).makeMove
      ⟨0, 63, PieceType.QUEEN⟩ = some b' :=
  makeMove_total { startBoard with enPassantSquare := 63 } ⟨0, 63, PieceType.QUEEN⟩
    (by decide) (by decide)

/-- The bounds checks of the model are effective: a target square outside the
array makes `makeMove` fail. -/
theorem makeMove_out_of_range :
    (startBoard.makeMove (Move.simple 12 64)).isSome = false ∧
      (startBoard.makeMove (Move.simple (-1) 12)).isSome = false := by
  decide!

/-! ## Frame lemmas for the squares of `makeMoveResult` -/

theorem getAt_ite_setAt (c : Prop) [Decidable c] (x : Fin 64 → Piece) (a : Int) (p : Piece)
    (j : Int) (h0 : 0 ≤ j) (h1 : j < 64) (h : c → j ≠ a) :
    getAt (if c then setAt x a p else x) j = getAt x j := by
  split_ifs with hc
  · rw [getAt_setAt _ _ _ _ h0 h1, if_neg (h hc)]
  · rfl

theorem getAt_ite_setAt_setAt (c : Prop) [Decidable c] (x : Fin 64 → Piece) (a a' : Int)
    (p p' : Piece) (j : Int) (h0 : 0 ≤ j) (h1 : j < 64) (h : c → j ≠ a ∧ j ≠ a') :
    getAt (if c then setAt (setAt x a p) a' p' else x) j = getAt x j := by
  split_ifs with hc
  · rw [getAt_setAt _ _ _ _ h0 h1, if_neg (h hc).2, getAt_setAt _ _ _ _ h0 h1, if_neg (h hc).1]
  · rfl

theorem getAt_ite_setAt_empty (c : Prop) [Decidable c] (x : Fin 64 → Piece) (a : Int)
    (j : Int) (h0 : 0 ≤ j) (h1 : j < 64) (h : (getAt x j).isEmpty = true) :
    (getAt (if c then setAt x a Piece.empty else x) j).isEmpty = true := by
  split_ifs with hc
  · rw [getAt_setAt _ _ _ _ h0 h1]
    split_ifs
    · rfl
    · exact h
  · exact h

/-! ## Membership in the lists of the move generator -/

theorem mem_foldl_append {α : Type} (g : α → List Move) (l : List α) :
    ∀ (init : List Move) (m : Move),
      m ∈ l.foldl (fun acc d => acc ++ g d) init ↔ m ∈ init ∨ ∃ d ∈ l, m ∈ g d := by
  induction l with
  | nil => intro init m; simp
  | cons a t ih =>
    intro init m
    rw [List.foldl_cons, ih]
    simp only [List.mem_append, List.mem_cons, exists_eq_or_imp, or_assoc]

/-- The moves of the offset loop: one move for each offset whose square is on the
board and is empty or holds a piece of the other colour. -/
theorem mem_offsetMoves (b : Board) (square file rank : Int) (c : Color)
    (offsets : List (Int × Int)) (m : Move) :
    m ∈ offsetMoves b square file rank c offsets ↔
      ∃ d ∈ offsets, isSquareOnBoard (file + d.1) (rank + d.2) = true ∧
        ((b.getPieceAt (squareFromCoords (file + d.1) (rank + d.2))).isEmpty = true ∨
          (b.getPieceAt (squareFromCoords (file + d.1) (rank + d.2))).color ≠ c) ∧
        m = Move.simple square (squareFromCoords (file + d.1) (rank + d.2)) := by
  have hfold : offsetMoves b square file rank c offsets =
      offsets.foldl (fun acc d => acc ++
        (if isSquareOnBoard (file + d.1) (rank + d.2) = true ∧
            ((b.getPieceAt (squareFromCoords (file + d.1) (rank + d.2))).isEmpty = true ∨
              (b.getPieceAt (squareFromCoords (file + d.1) (rank + d.2))).color ≠ c) then
          [Move.simple square (squareFromCoords (file + d.1) (rank + d.2))] else [])) [] := by
    unfold offsetMoves
    congr 1
    funext acc d
    by_cases h1 : isSquareOnBoard (file + d.1) (rank + d.2) = true
    · by_cases h2 : (b.getPieceAt (squareFromCoords (file + d.1) (rank + d.2))).isEmpty = true
      · simp [h1, h2]
      · by_cases h3 : (b.getPieceAt (squareFromCoords (file + d.1) (rank + d.2))).color = c
        · simp [h1, h2, h3]
        · simp [h1, h2, h3]
    · simp [h1]
  rw [hfold, mem_foldl_append]
  simp only [List.not_mem_nil, false_or]
  constructor
  · rintro ⟨d, hd, hm⟩
    split_ifs at hm with h
    · exact ⟨d, hd, h.1, h.2, List.mem_singleton.mp hm⟩
    · exact absurd hm (List.not_mem_nil _)
  · rintro ⟨d, hd, h1, h2, rfl⟩
    refine ⟨d, hd, ?_⟩
    rw [if_pos ⟨h1, h2⟩]
    exact List.mem_singleton_self _

/-- The moves of the castling block for a white king. -/
theorem mem_castlingMoves_white (b : Board) (square : Int) (m : Move) :
    m ∈ castlingMoves b square Color.WHITE ↔
      (b.whiteCanCastleKingside = true ∧ (b.getPieceAt 5).isEmpty = true ∧
          (b.getPieceAt 6).isEmpty = true ∧ m = Move.simple square 6) ∨
        (b.whiteCanCastleQueenside = true ∧ (b.getPieceAt 1).isEmpty = true ∧
          (b.getPieceAt 2).isEmpty = true ∧ (b.getPieceAt 3).isEmpty = true ∧
          m = Move.simple square 2) := by
  have e : ∀ f : Int, squareFromCoords f 0 = f := by intro f; simp [squareFromCoords]
  simp only [castlingMoves, if_true, e, List.mem_append, Bool.and_eq_true]
  by_cases h1 : b.whiteCanCastleKingside = true <;>
    by_cases h2 : b.whiteCanCastleQueenside = true <;>
    by_cases h3 : (b.getPieceAt 5).isEmpty = true ∧ (b.getPieceAt 6).isEmpty = true <;>
    by_cases h4 : ((b.getPieceAt 1).isEmpty = true ∧ (b.getPieceAt 2).isEmpty = true) ∧
      (b.getPieceAt 3).isEmpty = true <;>
    simp [h1, h2, h3, h4] <;> tauto

/-- The moves of the castling block for a black king. -/
theorem mem_castlingMoves_black (b : Board) (square : Int) (m : Move) :
    m ∈ castlingMoves b square Color.BLACK ↔
      (b.blackCanCastleKingside = true ∧ (b.getPieceAt 61).isEmpty = true ∧
          (b.getPieceAt 62).isEmpty = true ∧ m = Move.simple square 62) ∨
        (b.blackCanCastleQueenside = true ∧ (b.getPieceAt 57).isEmpty = true ∧
          (b.getPieceAt 58).isEmpty = true ∧ (b.getPieceAt 59).isEmpty = true ∧
          m = Move.simple square 58) := by
  have e : ∀ f : Int, squareFromCoords f 7 = 56 + f := by
    intro f; simp [squareFromCoords]
  simp only [castlingMoves, reduceCtorEq, if_false, e, List.mem_append, Bool.and_eq_true]
  norm_num
  by_cases h1 : b.blackCanCastleKingside = true <;>
    by_cases h2 : b.blackCanCastleQueenside = true <;>
    by_cases h3 : (b.getPieceAt 61).isEmpty = true ∧ (b.getPieceAt 62).isEmpty = true <;>
    by_cases h4 : ((b.getPieceAt 57).isEmpty = true ∧ (b.getPieceAt 58).isEmpty = true) ∧
      (b.getPieceAt 59).isEmpty = true <;>
    simp [h1, h2, h3, h4] <;> tauto

/-- The moves of one ray of `generateSlidingMoves`, started at `(f, r)`: the move
to the square `j` steps further, for every `j` below the fuel such that the
squares at steps `0..j` are on the board, those at steps `0..j-1` are empty, and
the square at step `j` is empty or holds a piece of another colour than `c`. -/
theorem mem_slideRay (b : Board) (s : Int) (c : Color) (dx dy : Int) :
    ∀ (fuel : Nat) (f r : Int) (m : Move),
      m ∈ slideRay b s c dx dy fuel f r ↔
        ∃ j : Nat, j < fuel ∧
          (∀ i : Nat, i ≤ j → isSquareOnBoard (f + i * dx) (r + i * dy) = true) ∧
          (∀ i : Nat, i < j →
            (b.getPieceAt (squareFromCoords (f + i * dx) (r + i * dy))).isEmpty = true) ∧
          ((b.getPieceAt (squareFromCoords (f + j * dx) (r + j * dy))).isEmpty = true ∨
            (b.getPieceAt (squareFromCoords (f + j * dx) (r + j * dy))).color ≠ c) ∧
          m = Move.simple s (squareFromCoords (f + j * dx) (r + j * dy)) := by
  intro fuel
  induction fuel with
  | zero => intro f r m; simp [slideRay]
  | succ n ih =>
    intro f r m
    have hf0 : f + ((0 : Nat) : Int) * dx = f := by simp
    have hr0 : r + ((0 : Nat) : Int) * dy = r := by simp
    have hfs : ∀ i : Nat, f + ((i + 1 : Nat) : Int) * dx = (f + dx) + (i : Int) * dx := by
      intro i; push_cast; ring
    have hrs : ∀ i : Nat, r + ((i + 1 : Nat) : Int) * dy = (r + dy) + (i : Int) * dy := by
      intro i; push_cast; ring
    unfold slideRay
    simp only
    by_cases hb : isSquareOnBoard f r = true
    · rw [if_pos hb]
      by_cases he : (b.getPieceAt (squareFromCoords f r)).isEmpty = true
      · rw [if_pos he, List.mem_cons, ih]
        constructor
        · rintro (rfl | ⟨j, hj, h1, h2, h3, rfl⟩)
          · refine ⟨0, Nat.succ_pos n, ?_, ?_, ?_, ?_⟩
            · intro i hi
              obtain rfl : i = 0 := Nat.le_zero.mp hi
              rw [hf0, hr0]; exact hb
            · intro i hi; exact absurd hi (Nat.not_lt_zero i)
            · rw [hf0, hr0]; exact Or.inl he
            · rw [hf0, hr0]
          · refine ⟨j + 1, Nat.succ_lt_succ hj, ?_, ?_, ?_, ?_⟩
            · intro i hi
              cases i with
              | zero => rw [hf0, hr0]; exact hb
              | succ i' => rw [hfs, hrs]; exact h1 i' (Nat.le_of_succ_le_succ hi)
            · intro i hi
              cases i with
              | zero => rw [hf0, hr0]; exact he
              | succ i' => rw [hfs, hrs]; exact h2 i' (Nat.lt_of_succ_lt_succ hi)
            · rw [hfs, hrs]; exact h3
            · rw [hfs, hrs]
        · rintro ⟨j, hj, h1, h2, h3, rfl⟩
          cases j with
          | zero => left; rw [hf0, hr0]
          | succ j' =>
            right
            refine ⟨j', Nat.lt_of_succ_lt_succ hj, ?_, ?_, ?_, ?_⟩
            · intro i hi; rw [← hfs, ← hrs]; exact h1 (i + 1) (Nat.succ_le_succ hi)
            · intro i hi; rw [← hfs, ← hrs]; exact h2 (i + 1) (Nat.succ_lt_succ hi)
            · rw [← hfs, ← hrs]; exact h3
            · rw [← hfs, ← hrs]
      · rw [if_neg he]
        have hj0 : ∀ j : Nat,
            (∀ i : Nat, i < j →
              (b.getPieceAt (squareFromCoords (f + i * dx) (r + i * dy))).isEmpty = true) →
            j = 0 := by
          intro j h2
          cases j with
          | zero => rfl
          | succ j' =>
            have := h2 0 (Nat.succ_pos j')
            rw [hf0, hr0] at this
            exact absurd this he
        by_cases hc : (b.getPieceAt (squareFromCoords f r)).color ≠ c
        · rw [if_pos hc, List.mem_singleton]
          constructor
          · rintro rfl
            refine ⟨0, Nat.succ_pos n, ?_, ?_, ?_, ?_⟩
            · intro i hi
              obtain rfl : i = 0 := Nat.le_zero.mp hi
              rw [hf0, hr0]; exact hb
            · intro i hi; exact absurd hi (Nat.not_lt_zero i)
            · rw [hf0, hr0]; exact Or.inr hc
            · rw [hf0, hr0]
          · rintro ⟨j, -, -, h2, -, rfl⟩
            obtain rfl := hj0 j h2
            rw [hf0, hr0]
        · rw [if_neg hc]
          constructor
          · intro h; exact absurd h (List.not_mem_nil _)
          · rintro ⟨j, -, -, h2, h3, -⟩
            obtain rfl := hj0 j h2
            rw [hf0, hr0] at h3
            rcases h3 with h3 | h3
            · exact absurd h3 he
            · exact absurd h3 hc
    · rw [if_neg hb]
      constructor
      · intro h; exact absurd h (List.not_mem_nil _)
      · rintro ⟨j, -, h1, -⟩
        have := h1 0 (Nat.zero_le j)
        rw [hf0, hr0] at this
        exact absurd this hb

/-- Extra fuel changes nothing once the ray has left the board: the loop of
`generateSlidingMoves` has ended before the fuel is used up. -/
theorem slideRay_fuel (b : Board) (s : Int) (c : Color) (dx dy : Int) :
    ∀ (fuel n : Nat) (f r : Int),
      isSquareOnBoard (f + fuel * dx) (r + fuel * dy) = false →
      slideRay b s c dx dy (fuel + n) f r = slideRay b s c dx dy fuel f r := by
  intro fuel
  induction fuel with
  | zero =>
    intro n f r h
    have h' : isSquareOnBoard f r = false := by simpa using h
    cases n with
    | zero => rfl
    | succ k => simp [slideRay, h']
  | succ k ih =>
    intro n f r h
    have hs : isSquareOnBoard ((f + dx) + k * dx) ((r + dy) + k * dy) = false := by
      have e1 : (f + dx) + (k : Int) * dx = f + ((k + 1 : Nat) : Int) * dx := by
        push_cast; ring
      have e2 : (r + dy) + (k : Int) * dy = r + ((k + 1 : Nat) : Int) * dy := by
        push_cast; ring
      rw [e1, e2]; exact h
    have e : k + 1 + n = (k + n) + 1 := by omega
    rw [e]
    unfold slideRay
    simp only
    rw [ih n (f + dx) (r + dy) hs]

/-- The moves of one ray from the on-board square `(f, r)` in a unit direction,
as `generateSlidingMoves` starts it with fuel 8: the move to the on-board square
`k ≥ 1` steps away when the squares at steps `1..k-1` are empty and the square at
step `k` is empty or holds a piece of another colour than `c`. -/
theorem mem_slideRay_from (b : Board) (s : Int) (c : Color) (dx dy f r : Int)
    (hf : 0 ≤ f ∧ f < 8) (hr : 0 ≤ r ∧ r < 8)
    (hdx : dx = -1 ∨ dx = 0 ∨ dx = 1) (hdy : dy = -1 ∨ dy = 0 ∨ dy = 1)
    (hnz : dx ≠ 0 ∨ dy ≠ 0) (m : Move) :
    m ∈ slideRay b s c dx dy 8 (f + dx) (r + dy) ↔
      ∃ k : Nat, 1 ≤ k ∧ isSquareOnBoard (f + k * dx) (r + k * dy) = true ∧
        (∀ i : Nat, 1 ≤ i → i < k →
          (b.getPieceAt (squareFromCoords (f + i * dx) (r + i * dy))).isEmpty = true) ∧
        ((b.getPieceAt (squareFromCoords (f + k * dx) (r + k * dy))).isEmpty = true ∨
          (b.getPieceAt (squareFromCoords (f + k * dx) (r + k * dy))).color ≠ c) ∧
        m = Move.simple s (squareFromCoords (f + k * dx) (r + k * dy)) := by
  have hfs : ∀ i : Nat, (f + dx) + (i : Int) * dx = f + ((i + 1 : Nat) : Int) * dx := by
    intro i; push_cast; ring
  have hrs : ∀ i : Nat, (r + dy) + (i : Int) * dy = r + ((i + 1 : Nat) : Int) * dy := by
    intro i; push_cast; ring
  rw [mem_slideRay]
  constructor
  · rintro ⟨j, -, h1, h2, h3, rfl⟩
    refine ⟨j + 1, Nat.succ_pos j, ?_, ?_, ?_, ?_⟩
    · rw [← hfs, ← hrs]; exact h1 j (Nat.le_refl j)
    · intro i hi1 hi2
      obtain ⟨i', rfl⟩ : ∃ i', i = i' + 1 := ⟨i - 1, by omega⟩
      rw [← hfs, ← hrs]; exact h2 i' (by omega)
    · rw [← hfs, ← hrs]; exact h3
    · rw [← hfs, ← hrs]
  · rintro ⟨k, hk, h1, h2, h3, rfl⟩
    obtain ⟨j, rfl⟩ : ∃ j, k = j + 1 := ⟨k - 1, by omega⟩
    rw [isSquareOnBoard_iff] at h1
    refine ⟨j, ?_, ?_, ?_, ?_, ?_⟩
    · push_cast at h1
      rcases hdx with rfl | rfl | rfl <;> rcases hdy with rfl | rfl | rfl <;>
        simp at hnz <;> omega
    · intro i hi
      rw [isSquareOnBoard_iff]
      have hi' : (i : Int) ≤ j := by exact_mod_cast hi
      push_cast at h1
      rcases hdx with rfl | rfl | rfl <;> rcases hdy with rfl | rfl | rfl <;> omega
    · intro i hi
      rw [hfs, hrs]; exact h2 (i + 1) (by omega) (by omega)
    · rw [hfs, hrs]; exact h3
    · rw [hfs, hrs]

/-- A ray in a unit direction returns no move twice. -/
theorem slideRay_nodup (b : Board) (s : Int) (c : Color) (dx dy : Int)
    (hdx : dx = -1 ∨ dx = 0 ∨ dx = 1) (hdy : dy = -1 ∨ dy = 0 ∨ dy = 1)
    (hnz : dx ≠ 0 ∨ dy ≠ 0) :
    ∀ (fuel : Nat) (f r : Int), (slideRay b s c dx dy fuel f r).Nodup := by
  intro fuel
  induction fuel with
  | zero => intro f r; simp [slideRay]
  | succ n ih =>
    intro f r
    unfold slideRay
    simp only
    split_ifs with hb he hc
    · rw [List.nodup_cons]
      refine ⟨?_, ih _ _⟩
      intro hmem
      rw [mem_slideRay] at hmem
      obtain ⟨j, -, h1, -, -, heq⟩ := hmem
      have hj := h1 j (Nat.le_refl j)
      rw [isSquareOnBoard_iff] at hb hj
      simp only [Move.simple, Move.mk.injEq, squareFromCoords, true_and, and_true] at heq
      rcases hdx with rfl | rfl | rfl <;> rcases hdy with rfl | rfl | rfl <;>
        simp at hnz <;> omega
    · exact List.nodup_singleton _
    · exact List.nodup_nil
    · exact List.nodup_nil

/-- Rays from one on-board square in two different unit directions share no
move. -/
theorem slideRay_disjoint (b : Board) (s : Int) (c : Color) (f r : Int)
    (hf : 0 ≤ f ∧ f < 8) (dx dy ex ey : Int)
    (hdx : dx = -1 ∨ dx = 0 ∨ dx = 1) (hdy : dy = -1 ∨ dy = 0 ∨ dy = 1)
    (hex : ex = -1 ∨ ex = 0 ∨ ex = 1) (hey : ey = -1 ∨ ey = 0 ∨ ey = 1)
    (hne : dx ≠ ex ∨ dy ≠ ey) (n n' : Nat) (m : Move)
    (h1 : m ∈ slideRay b s c dx dy n (f + dx) (r + dy))
    (h2 : m ∈ slideRay b s c ex ey n' (f + ex) (r + ey)) : False := by
  rw [mem_slideRay] at h1 h2
  obtain ⟨j, -, a1, -, -, rfl⟩ := h1
  obtain ⟨j', -, a2, -, -, heq⟩ := h2
  have b1 := a1 j (Nat.le_refl j)
  have b2 := a2 j' (Nat.le_refl j')
  rw [isSquareOnBoard_iff] at b1 b2
  simp only [Move.simple, Move.mk.injEq, squareFromCoords, true_and, and_true] at heq
  rcases hdx with rfl | rfl | rfl <;> rcases hdy with rfl | rfl | rfl <;>
    rcases hex with rfl | rfl | rfl <;> rcases hey with rfl | rfl | rfl <;>
    simp at hne <;> omega

theorem nodup_foldl_append {α : Type} (g : α → List Move) (l : List α) :
    ∀ init : List Move, init.Nodup → (∀ d ∈ l, (g d).Nodup) →
      (∀ d ∈ l, ∀ m ∈ g d, m ∉ init) →
      l.Pairwise (fun d e => ∀ m ∈ g d, m ∉ g e) →
      (l.foldl (fun acc d => acc ++ g d) init).Nodup := by
  induction l with
  | nil => intro init h _ _ _; simpa using h
  | cons a t ih =>
    intro init hinit hnd hdis hpw
    rw [List.foldl_cons]
    rw [List.pairwise_cons] at hpw
    apply ih
    · rw [List.nodup_append]
      refine ⟨hinit, hnd a (List.mem_cons_self _ _), ?_⟩
      intro m hm1 hm2
      exact hdis a (List.mem_cons_self _ _) m hm2 hm1
    · intro d hd; exact hnd d (List.mem_cons_of_mem _ hd)
    · intro d hd m hm hmem
      rcases List.mem_append.mp hmem with h | h
      · exact hdis d (List.mem_cons_of_mem _ hd) m hm h
      · exact hpw.1 d hd m h hm
    · exact hpw.2

/-! ## The moves of `generatePawnMoves` -/

theorem mem_pawnTargetMoves (square target newRank : Int) (m : Move)
    (h : m ∈ pawnTargetMoves square target newRank) :
    m.startSquare = square ∧ m.targetSquare = target := by
  unfold pawnTargetMoves at h
  split_ifs at h <;> simp [Move.simple] at h <;>
    (rcases h with rfl | rfl | rfl | rfl) <;> exact ⟨rfl, rfl⟩

theorem exists_mem_pawnTargetMoves (square target newRank : Int) :
    ∃ m ∈ pawnTargetMoves square target newRank,
      m.startSquare = square ∧ m.targetSquare = target := by
  unfold pawnTargetMoves
  split_ifs
  · exact ⟨⟨square, target, PieceType.QUEEN⟩, List.mem_cons_self _ _, rfl, rfl⟩
  · exact ⟨Move.simple square target, List.mem_cons_self _ _, rfl, rfl⟩

/-- The moves of the push block: the single push, and the double push behind
it. -/
theorem mem_pawnPushes (b : Board) (square file rank direction startingRank : Int) (m : Move)
    (h : m ∈ pawnPushes b square file rank direction startingRank) :
    m.startSquare = square ∧
      isSquareOnBoard file (rank + direction) = true ∧
      (b.getPieceAt (squareFromCoords file (rank + direction))).isEmpty = true ∧
      (m.targetSquare = squareFromCoords file (rank + direction) ∨
        (rank = startingRank ∧
          (b.getPieceAt (squareFromCoords file (rank + 2 * direction))).isEmpty = true ∧
          m.targetSquare = squareFromCoords file (rank + 2 * direction))) := by
  unfold pawnPushes at h
  simp only at h
  by_cases hb : isSquareOnBoard file (rank + direction) = true
  · rw [if_pos hb] at h
    by_cases he : (b.getPieceAt (squareFromCoords file (rank + direction))).isEmpty = true
    · rw [if_pos he] at h
      rcases List.mem_append.mp h with h1 | h2
      · have := mem_pawnTargetMoves _ _ _ m h1
        exact ⟨this.1, hb, he, Or.inl this.2⟩
      · split_ifs at h2 with hr hd
        · rcases List.mem_singleton.mp h2 with rfl
          exact ⟨rfl, hb, he, Or.inr ⟨hr, hd, rfl⟩⟩
        · exact absurd h2 (List.not_mem_nil _)
        · exact absurd h2 (List.not_mem_nil _)
    · rw [if_neg he] at h
      exact absurd h (List.not_mem_nil _)
  · rw [if_neg hb] at h
    exact absurd h (List.not_mem_nil _)

theorem exists_mem_pawnPushes_single (b : Board) (square file rank direction startingRank : Int)
    (hb : isSquareOnBoard file (rank + direction) = true)
    (he : (b.getPieceAt (squareFromCoords file (rank + direction))).isEmpty = true) :
    ∃ m ∈ pawnPushes b square file rank direction startingRank,
      m.startSquare = square ∧ m.targetSquare = squareFromCoords file (rank + direction) := by
  obtain ⟨m, hm, h⟩ := exists_mem_pawnTargetMoves square
    (squareFromCoords file (rank + direction)) (rank + direction)
  refine ⟨m, ?_, h⟩
  unfold pawnPushes
  simp only
  rw [if_pos hb, if_pos he]
  exact List.mem_append_left _ hm

theorem exists_mem_pawnPushes_double (b : Board) (square file rank direction startingRank : Int)
    (hb : isSquareOnBoard file (rank + direction) = true)
    (he : (b.getPieceAt (squareFromCoords file (rank + direction))).isEmpty = true)
    (hr : rank = startingRank)
    (hd : (b.getPieceAt (squareFromCoords file (rank + 2 * direction))).isEmpty = true) :
    ∃ m ∈ pawnPushes b square file rank direction startingRank,
      m.startSquare = square ∧
        m.targetSquare = squareFromCoords file (rank + 2 * direction) := by
  refine ⟨Move.simple square (squareFromCoords file (rank + 2 * direction)), ?_, rfl, rfl⟩
  unfold pawnPushes
  simp only
  rw [if_pos hb, if_pos he, if_pos hr, if_pos hd]
  exact List.mem_append_right _ (List.mem_singleton_self _)

/-- The moves of one iteration of the capture loop. -/
theorem mem_pawnCaptures (b : Board) (square file rank direction : Int) (c : Color)
    (df : Int) (m : Move) (h : m ∈ pawnCaptures b square file rank direction c df) :
    m.startSquare = square ∧
      isSquareOnBoard (file + df) (rank + direction) = true ∧
      m.targetSquare = squareFromCoords (file + df) (rank + direction) ∧
      (((b.getPieceAt (squareFromCoords (file + df) (rank + direction))).isEmpty = false ∧
          (b.getPieceAt (squareFromCoords (file + df) (rank + direction))).color ≠ c) ∨
        squareFromCoords (file + df) (rank + direction) = b.enPassantSquare) := by
  unfold pawnCaptures at h
  simp only at h
  by_cases hb : isSquareOnBoard (file + df) (rank + direction) = true
  · rw [if_pos hb] at h
    rcases List.mem_append.mp h with h1 | h2
    · split_ifs at h1 with hc
      · have := mem_pawnTargetMoves _ _ _ m h1
        simp only [Bool.and_eq_true, Bool.not_eq_true', decide_eq_true_eq] at hc
        exact ⟨this.1, hb, this.2, Or.inl hc⟩
      · exact absurd h1 (List.not_mem_nil _)
    · split_ifs at h2 with he
      · rcases List.mem_singleton.mp h2 with rfl
        exact ⟨rfl, hb, rfl, Or.inr he⟩
      · exact absurd h2 (List.not_mem_nil _)
  · rw [if_neg hb] at h
    exact absurd h (List.not_mem_nil _)

theorem exists_mem_pawnCaptures (b : Board) (square file rank direction : Int) (c : Color)
    (df : Int) (hb : isSquareOnBoard (file + df) (rank + direction) = true)
    (hc : ((b.getPieceAt (squareFromCoords (file + df) (rank + direction))).isEmpty = false ∧
        (b.getPieceAt (squareFromCoords (file + df) (rank + direction))).color ≠ c) ∨
      squareFromCoords (file + df) (rank + direction) = b.enPassantSquare) :
    ∃ m ∈ pawnCaptures b square file rank direction c df,
      m.startSquare = square ∧
        m.targetSquare = squareFromCoords (file + df) (rank + direction) := by
  unfold pawnCaptures
  simp only
  rw [if_pos hb]
  rcases hc with hc | hc
  · obtain ⟨m, hm, h⟩ := exists_mem_pawnTargetMoves square
      (squareFromCoords (file + df) (rank + direction)) (rank + direction)
    refine ⟨m, List.mem_append_left _ ?_, h⟩
    rw [if_pos (by simp [hc.1, hc.2])]
    exact hm
  · refine ⟨Move.simple square (squareFromCoords (file + df) (rank + direction)),
      List.mem_append_right _ ?_, rfl, rfl⟩
    rw [if_pos hc]
    exact List.mem_singleton_self _

/-- The list of `generatePawnMoves` for a square of the board, split into its
three parts. -/
theorem generatePawnMoves_eq (b : Board) (s : Int) (h0 : 0 ≤ s) :
    generatePawnMoves b s =
      pawnPushes b s (s % 8) (s / 8) (forward (b.getPieceAt s).color)
          (pawnHomeRank (b.getPieceAt s).color) ++
        pawnCaptures b s (s % 8) (s / 8) (forward (b.getPieceAt s).color)
          (b.getPieceAt s).color (-1) ++
        pawnCaptures b s (s % 8) (s / 8) (forward (b.getPieceAt s).color)
          (b.getPieceAt s).color 1 := by
  unfold generatePawnMoves forward pawnHomeRank
  simp only [coordsFromSquare_eq h0]

/-- Every move of `generatePawnMoves` starts on the square of the pawn and has the
shape of a single push, a double push or a capture. -/
theorem generatePawnMoves_sound (b : Board) (s : Int) (h0 : 0 ≤ s) (m : Move)
    (hm : m ∈ generatePawnMoves b s) :
    m.startSquare = s ∧
      (isSinglePush b s m.targetSquare ∨ isDoublePush b s m.targetSquare ∨
        isPawnCapture b s m.targetSquare) := by
  rw [generatePawnMoves_eq b s h0] at hm
  rcases List.mem_append.mp hm with h | h
  · rcases List.mem_append.mp h with h | h
    · obtain ⟨h1, hb, he, h2 | ⟨hr, hd, h2⟩⟩ := mem_pawnPushes _ _ _ _ _ _ m h
      · exact ⟨h1, Or.inl ⟨hb, h2, by rw [h2]; exact he⟩⟩
      · exact ⟨h1, Or.inr (Or.inl ⟨hr, h2, he, by rw [h2]; exact hd⟩)⟩
    · obtain ⟨h1, hb, h2, hc⟩ := mem_pawnCaptures _ _ _ _ _ _ _ m h
      refine ⟨h1, Or.inr (Or.inr ⟨-1, Or.inl rfl, hb, h2, ?_⟩)⟩
      rw [h2]; exact hc
  · obtain ⟨h1, hb, h2, hc⟩ := mem_pawnCaptures _ _ _ _ _ _ _ m h
    refine ⟨h1, Or.inr (Or.inr ⟨1, Or.inr rfl, hb, h2, ?_⟩)⟩
    rw [h2]; exact hc

/-- For every target of one of the three shapes `generatePawnMoves` returns a move
from the square of the pawn to it. -/
theorem generatePawnMoves_complete (b : Board) (s : Int) (h0 : 0 ≤ s) (t : Int)
    (ht : isSinglePush b s t ∨ isDoublePush b s t ∨ isPawnCapture b s t) :
    ∃ m ∈ generatePawnMoves b s, m.startSquare = s ∧ m.targetSquare = t := by
  rw [generatePawnMoves_eq b s h0]
  rcases ht with ⟨hb, rfl, he⟩ | ⟨hr, rfl, he, hd⟩ | ⟨df, hdf, hb, rfl, hc⟩
  · obtain ⟨m, hm, h⟩ := exists_mem_pawnPushes_single b s (s % 8) (s / 8)
      (forward (b.getPieceAt s).color) (pawnHomeRank (b.getPieceAt s).color) hb he
    exact ⟨m, List.mem_append_left _ (List.mem_append_left _ hm), h⟩
  · have hb : isSquareOnBoard (s % 8) (s / 8 + forward (b.getPieceAt s).color) = true := by
      rw [isSquareOnBoard_iff]
      unfold pawnHomeRank at hr
      unfold forward
      split_ifs at hr ⊢ <;> omega
    obtain ⟨m, hm, h⟩ := exists_mem_pawnPushes_double b s (s % 8) (s / 8)
      (forward (b.getPieceAt s).color) (pawnHomeRank (b.getPieceAt s).color) hb he hr hd
    exact ⟨m, List.mem_append_left _ (List.mem_append_left _ hm), h⟩
  · rcases hdf with rfl | rfl
    · obtain ⟨m, hm, h⟩ := exists_mem_pawnCaptures b s (s % 8) (s / 8)
        (forward (b.getPieceAt s).color) (b.getPieceAt s).color (-1) hb hc
      exact ⟨m, List.mem_append_left _ (List.mem_append_right _ hm), h⟩
    · obtain ⟨m, hm, h⟩ := exists_mem_pawnCaptures b s (s % 8) (s / 8)
        (forward (b.getPieceAt s).color) (b.getPieceAt s).color 1 hb hc
      exact ⟨m, List.mem_append_right _ hm, h⟩

/-- The directions of the two tables are unit steps, not both zero. -/
theorem direction_unit (dirs : List (Int × Int))
    (hdirs : dirs = bishopDirections ∨ dirs = rookDirections) (d : Int × Int) (hd : d ∈ dirs) :
    (d.1 = -1 ∨ d.1 = 0 ∨ d.1 = 1) ∧ (d.2 = -1 ∨ d.2 = 0 ∨ d.2 = 1) ∧ (d.1 ≠ 0 ∨ d.2 ≠ 0) := by
  rcases hdirs with rfl | rfl <;>
    simp only [bishopDirections, rookDirections, List.mem_cons, List.mem_singleton,
      List.not_mem_nil, or_false] at hd <;>
    rcases hd with rfl | rfl | rfl | rfl <;> simp

/-- The list of `generateSlidingMoves` for a square of the board: the rays of the
directions, one after the other. -/
theorem generateSlidingMoves_eq (b : Board) (s : Int) (dirs : List (Int × Int)) (h0 : 0 ≤ s) :
    generateSlidingMoves b s dirs =
      dirs.foldl (fun acc d => acc ++
        slideRay b s (b.getPieceAt s).color d.1 d.2 8 (s % 8 + d.1) (s / 8 + d.2)) [] := by
  unfold generateSlidingMoves
  simp only [coordsFromSquare_eq h0]

/-- The moves of `generateSlidingMoves` from a square of the board, for one of the
two direction tables. -/
theorem mem_generateSlidingMoves (b : Board) (s : Int) (dirs : List (Int × Int))
    (hs : 0 ≤ s ∧ s < 64) (hdirs : dirs = bishopDirections ∨ dirs = rookDirections)
    (m : Move) :
    m ∈ generateSlidingMoves b s dirs ↔
      ∃ d ∈ dirs, ∃ k : Nat, 1 ≤ k ∧
        isSquareOnBoard (s % 8 + k * d.1) (s / 8 + k * d.2) = true ∧
        (∀ i : Nat, 1 ≤ i → i < k →
          (b.getPieceAt (squareFromCoords (s % 8 + i * d.1) (s / 8 + i * d.2))).isEmpty
            = true) ∧
        ((b.getPieceAt (squareFromCoords (s % 8 + k * d.1) (s / 8 + k * d.2))).isEmpty = true ∨
          (b.getPieceAt (squareFromCoords (s % 8 + k * d.1) (s / 8 + k * d.2))).color ≠
            (b.getPieceAt s).color) ∧
        m = Move.simple s (squareFromCoords (s % 8 + k * d.1) (s / 8 + k * d.2)) := by
  have hf : 0 ≤ s % 8 ∧ s % 8 < 8 := by omega
  have hr : 0 ≤ s / 8 ∧ s / 8 < 8 := by omega
  rw [generateSlidingMoves_eq b s dirs hs.1, mem_foldl_append]
  simp only [List.not_mem_nil, false_or]
  constructor
  · rintro ⟨d, hd, hm⟩
    obtain ⟨hdx, hdy, hnz⟩ := direction_unit dirs hdirs d hd
    exact ⟨d, hd, (mem_slideRay_from b s _ d.1 d.2 _ _ hf hr hdx hdy hnz m).mp hm⟩
  · rintro ⟨d, hd, hk⟩
    obtain ⟨hdx, hdy, hnz⟩ := direction_unit dirs hdirs d hd
    exact ⟨d, hd, (mem_slideRay_from b s _ d.1 d.2 _ _ hf hr hdx hdy hnz m).mpr hk⟩

/-! ## Start and target squares of the generated moves -/

theorem generateSlidingMoves_good (b : Board) (s : Int) (dirs : List (Int × Int))
    (hs : 0 ≤ s ∧ s < 64) (hdirs : dirs = bishopDirections ∨ dirs = rookDirections)
    (m : Move) (hm : m ∈ generateSlidingMoves b s dirs) :
    m.startSquare = s ∧ m.targetSquare ≠ s ∧
      ((b.getPieceAt m.targetSquare).isEmpty = true ∨
        (b.getPieceAt m.targetSquare).color ≠ (b.getPieceAt s).color) := by
  rw [mem_generateSlidingMoves b s dirs hs hdirs] at hm
  obtain ⟨d, hd, k, hk, hon, -, hcol, rfl⟩ := hm
  obtain ⟨hdx, hdy, hnz⟩ := direction_unit dirs hdirs d hd
  refine ⟨rfl, ?_, hcol⟩
  rw [isSquareOnBoard_iff] at hon
  have hk' : (1 : Int) ≤ (k : Int) := by exact_mod_cast hk
  simp only [Move.simple, squareFromCoords]
  rcases hdx with h | h | h <;> rcases hdy with h' | h' | h' <;>
    rw [h, h'] at hon ⊢ <;> simp [h, h'] at hnz <;> omega

theorem offsetMoves_good (b : Board) (s : Int) (c : Color) (offsets : List (Int × Int))
    (hoff : offsets = knightOffsets ∨ offsets = kingOffsets)
    (m : Move) (hm : m ∈ offsetMoves b s (s % 8) (s / 8) c offsets) :
    m.startSquare = s ∧ m.targetSquare ≠ s ∧
      ((b.getPieceAt m.targetSquare).isEmpty = true ∨
        (b.getPieceAt m.targetSquare).color ≠ c) := by
  rw [mem_offsetMoves] at hm
  obtain ⟨d, hd, hon, hcol, rfl⟩ := hm
  refine ⟨rfl, ?_, hcol⟩
  rw [isSquareOnBoard_iff] at hon
  simp only [Move.simple, squareFromCoords]
  rcases hoff with rfl | rfl <;>
    simp only [knightOffsets, kingOffsets, List.mem_cons, List.mem_singleton,
      List.not_mem_nil, or_false] at hd <;>
    rcases hd with rfl | rfl | rfl | rfl | rfl | rfl | rfl | rfl <;> omega

theorem castlingMoves_good (b : Board) (s : Int) (c : Color)
    (hocc : (b.getPieceAt s).isEmpty = false) (m : Move) (hm : m ∈ castlingMoves b s c) :
    m.startSquare = s ∧ m.targetSquare ≠ s ∧ (b.getPieceAt m.targetSquare).isEmpty = true := by
  have key : ∀ t : Int, (b.getPieceAt t).isEmpty = true → m = Move.simple s t →
      m.startSquare = s ∧ m.targetSquare ≠ s ∧ (b.getPieceAt m.targetSquare).isEmpty = true := by
    rintro t ht rfl
    refine ⟨rfl, ?_, ht⟩
    intro h
    simp only [Move.simple] at h
    rw [h, hocc] at ht
    exact absurd ht (by decide)
  cases c
  · rw [mem_castlingMoves_white] at hm
    rcases hm with ⟨-, -, h, e⟩ | ⟨-, -, h, -, e⟩
    · exact key 6 h e
    · exact key 2 h e
  · rw [mem_castlingMoves_black] at hm
    rcases hm with ⟨-, -, h, e⟩ | ⟨-, -, h, -, e⟩
    · exact key 62 h e
    · exact key 58 h e

theorem generatePawnMoves_good (b : Board) (s : Int) (hs : 0 ≤ s ∧ s < 64)
    (hep : (b.getPieceAt b.enPassantSquare).isEmpty = true)
    (m : Move) (hm : m ∈ generatePawnMoves b s) :
    m.startSquare = s ∧ m.targetSquare ≠ s ∧
      ((b.getPieceAt m.targetSquare).isEmpty = true ∨
        (b.getPieceAt m.targetSquare).color ≠ (b.getPieceAt s).color) := by
  obtain ⟨h1, hshape⟩ := generatePawnMoves_sound b s hs.1 m hm
  have hfw : forward (b.getPieceAt s).color = 1 ∨ forward (b.getPieceAt s).color = -1 := by
    unfold forward; split_ifs <;> simp
  refine ⟨h1, ?_, ?_⟩
  · rcases hshape with ⟨hb, ht, -⟩ | ⟨-, ht, -, -⟩ | ⟨df, hdf, hb, ht, -⟩ <;>
      rw [ht] <;> simp only [squareFromCoords] <;>
      rcases hfw with h | h <;> rw [h] <;> omega
  · rcases hshape with ⟨-, -, he⟩ | ⟨-, -, -, he⟩ | ⟨df, -, -, -, hc | hc⟩
    · exact Or.inl he
    · exact Or.inl he
    · exact Or.inr hc.2
    · left; rw [hc]; exact hep

theorem generatePawnMoves_start (b : Board) (s : Int) (hs : 0 ≤ s ∧ s < 64)
    (m : Move) (hm : m ∈ generatePawnMoves b s) :
    m.startSquare = s ∧ m.targetSquare ≠ s := by
  obtain ⟨h1, hshape⟩ := generatePawnMoves_sound b s hs.1 m hm
  have hfw : forward (b.getPieceAt s).color = 1 ∨ forward (b.getPieceAt s).color = -1 := by
    unfold forward; split_ifs <;> simp
  refine ⟨h1, ?_⟩
  rcases hshape with ⟨hb, ht, -⟩ | ⟨-, ht, -, -⟩ | ⟨df, hdf, hb, ht, -⟩ <;>
    rw [ht] <;> simp only [squareFromCoords] <;>
    rcases hfw with h | h <;> rw [h] <;> omega

/-- Every pseudo-legal move of the piece on an occupied square `s` of the board
starts on `s`, ends on another square, and, when the en-passant square holds no
piece, ends on an empty square or on a piece of the other colour. -/
theorem pieceMovesAt_good (b : Board) (s : Int) (hs : 0 ≤ s ∧ s < 64)
    (hocc : (b.getPieceAt s).isEmpty = false) (m : Move)
    (hm : m ∈ pieceMovesAt b (b.getPieceAt s) s) :
    m.startSquare = s ∧ m.targetSquare ≠ s ∧
      ((b.getPieceAt b.enPassantSquare).isEmpty = true →
        ((b.getPieceAt m.targetSquare).isEmpty = true ∨
          (b.getPieceAt m.targetSquare).color ≠ (b.getPieceAt s).color)) := by
  unfold pieceMovesAt at hm
  split at hm
  · obtain ⟨h1, h2⟩ := generatePawnMoves_start b s hs m hm
    exact ⟨h1, h2, fun hep => (generatePawnMoves_good b s hs hep m hm).2.2⟩
  · unfold generateKnightMoves at hm
    simp only [coordsFromSquare_eq hs.1] at hm
    obtain ⟨h1, h2, h3⟩ := offsetMoves_good b s _ _ (Or.inl rfl) m hm
    exact ⟨h1, h2, fun _ => h3⟩
  · obtain ⟨h1, h2, h3⟩ := generateSlidingMoves_good b s _ hs (Or.inl rfl) m hm
    exact ⟨h1, h2, fun _ => h3⟩
  · obtain ⟨h1, h2, h3⟩ := generateSlidingMoves_good b s _ hs (Or.inr rfl) m hm
    exact ⟨h1, h2, fun _ => h3⟩
  · unfold generateQueenMoves at hm
    rcases List.mem_append.mp hm with h | h
    · obtain ⟨h1, h2, h3⟩ := generateSlidingMoves_good b s _ hs (Or.inl rfl) m h
      exact ⟨h1, h2, fun _ => h3⟩
    · obtain ⟨h1, h2, h3⟩ := generateSlidingMoves_good b s _ hs (Or.inr rfl) m h
      exact ⟨h1, h2, fun _ => h3⟩
  · unfold generateKingMoves at hm
    simp only [coordsFromSquare_eq hs.1] at hm
    rcases List.mem_append.mp hm with h | h
    · obtain ⟨h1, h2, h3⟩ := offsetMoves_good b s _ _ (Or.inr rfl) m h
      exact ⟨h1, h2, fun _ => h3⟩
    · obtain ⟨h1, h2, h3⟩ := castlingMoves_good b s _ hocc m h
      exact ⟨h1, h2, fun _ => Or.inl h3⟩
  · exact absurd hm (List.not_mem_nil _)

/-! ## The blocks of `loadFromFen` -/

theorem parseEnPassant_dash : parseEnPassant ['-'] = some (-1) := by
  simp [parseEnPassant]

theorem parseEnPassant_square (f r : Char) :
    parseEnPassant [f, r] =
      some (squareFromCoords ((f.toNat : Int) - 97) ((r.toNat : Int) - 49)) := by
  by_cases h : [f, r] = ['-']
  · simp at h
  · simp [parseEnPassant, stringAt]

/-- The result of `loadFromFen` when the placement loop and the en-passant block
perform no undefined access. -/
theorem loadFromFen_eq (b : Board) (fen : List Char) (st : (Fin 64 → Piece) × Int × Int)
    (ep : Int)
    (hplace : (fenWord 0 fen).foldlM placeChar ((fun _ => Piece.empty), 7, 0) = some st)
    (hep : parseEnPassant (fenWord 3 fen) = some ep) :
    b.loadFromFen fen = some
      { squares := st.1
        sideToMove := if fenWord 1 fen = ['w'] then Color.WHITE else Color.BLACK
        whiteCanCastleKingside := (fenWord 2 fen).contains 'K'
        whiteCanCastleQueenside := (fenWord 2 fen).contains 'Q'
        blackCanCastleKingside := (fenWord 2 fen).contains 'k'
        blackCanCastleQueenside := (fenWord 2 fen).contains 'q'
        enPassantSquare := ep
        moveHistory := [] } := by
  simp only [fenWord] at hplace hep
  simp only [Board.loadFromFen, fenWord, hplace, hep, Option.bind_eq_bind, Option.some_bind]

/-! ## The text written by `toFen`, read back by `loadFromFen` -/

/-- C21, as stated, fails: the text with the en-passant field `z9` is loaded, with
the en-passant target 89, and a text with five fields is loaded as well. -/
theorem loadFromFen_accepts_malformed :
    (emptyBoard.loadFromFen "8/8/8/8/8/8/8/8 w - z9 0 1".toList).map
        (fun b => b.enPassantSquare) = some 89 ∧
      (emptyBoard.loadFromFen "8/8/8/8/8/8/8/8 w - - 0".toList).map
        (fun b => b.enPassantSquare) = some (-1) := by
  decide!

/-- C21, amended: `loadFromFen` has no failure path.  For every text whose
piece-placement field stays inside the board and whose en-passant field is `-` or
a square with file a..h and rank 1..8 it produces a board, whatever the number of
fields after the fourth, and the en-passant target of that board is -1 for `-` and
otherwise the square named, which lies in 0..63. -/
theorem loadFromFen_enPassant_in_range (b : Board) (fen : List Char) (f r : Char)
    (hplace : ((fenWord 0 fen).foldlM placeChar ((fun _ => Piece.empty), 7, 0)).isSome = true)
    (hep : fenWord 3 fen = ['-'] ∨
      (fenWord 3 fen = [f, r] ∧ 97 ≤ f.toNat ∧ f.toNat ≤ 104 ∧ 49 ≤ r.toNat ∧ r.toNat ≤ 56)) :
    ∃ b', b.loadFromFen fen = some b' ∧
      ((fenWord 3 fen = ['-'] ∧ b'.enPassantSquare = -1) ∨
        (fenWord 3 fen = [f, r] ∧
          b'.enPassantSquare =
            squareFromCoords ((f.toNat : Int) - 97) ((r.toNat : Int) - 49) ∧
          0 ≤ b'.enPassantSquare ∧ b'.enPassantSquare < 64)) := by
  obtain ⟨st, hst⟩ := Option.isSome_iff_exists.mp hplace
  rcases hep with h | ⟨h, hf0, hf1, hr0, hr1⟩
  · refine ⟨_, loadFromFen_eq b fen st (-1) hst (by rw [h]; exact parseEnPassant_dash), ?_⟩
    exact Or.inl ⟨h, rfl⟩
  · refine ⟨_, loadFromFen_eq b fen st _ hst (by rw [h]; exact parseEnPassant_square f r), ?_⟩
    refine Or.inr ⟨h, rfl, ?_, ?_⟩ <;> simp only [squareFromCoords] <;> omega

/-- Witness of C21 amended: a text of four fields with the en-passant field e3. -/
theorem loadFromFen_enPassant_in_range_witness :
    ∃ b', emptyBoard.loadFromFen "8/8/8/8/4P3/8/8/8 b - e3".toList = some b' ∧
      ((fenWord 3 "8/8/8/8/4P3/8/8/8 b - e3".toList = ['-'] ∧ b'.enPassantSquare = -1) ∨
        (fenWord 3 "8/8/8/8/4P3/8/8/8 b - e3".toList = ['e', '3'] ∧
          b'.enPassantSquare =
            squareFromCoords ((('e' : Char).toNat : Int) - 97) ((('3' : Char).toNat : Int) - 49) ∧
          0 ≤ b'.enPassantSquare ∧ b'.enPassantSquare < 64)) :=
  loadFromFen_enPassant_in_range emptyBoard "8/8/8/8/4P3/8/8/8 b - e3".toList 'e' '3'
    (by decide) (by decide)

/-- C22, as stated, fails: with the en-passant target on e5 and the white pawn
moving e4-e5 onto it, `makeMove` empties the square of the target file on rank
index 4, which is the target itself, so the target is empty afterwards. -/
theorem makeMove_target_emptied :
    enPassantAhead.getPieceAt 28 = ⟨PieceType.PAWN, Color.WHITE⟩ ∧
      (enPassantAhead.makeMove (Move.simple 28 36)).map
        (fun b' => (b'.getPieceAt 28, b'.getPieceAt 36)) = some (Piece.empty, Piece.empty) := by
  decide!

/-- C22, amended: for every position and every move with start and target in
0..63 and start different from target, except when the moving piece is a pawn
whose target equals the current en-passant target and lies on rank index 4 (white
pawn) or 3 (black pawn), in the board returned by `makeMove` the start square is
empty and the target square holds a piece of the moving piece's colour whose kind
is the move's promotion kind when that is not none and the moving piece's kind
otherwise. -/
theorem makeMove_relocates (b : Board) (m : Move)
    (hs : 0 ≤ m.startSquare ∧ m.startSquare < 64)
    (ht : 0 ≤ m.targetSquare ∧ m.targetSquare < 64)
    (hne : m.startSquare ≠ m.targetSquare)
    (hcap : ¬ ((b.getPieceAt m.startSquare).type = PieceType.PAWN ∧
      m.targetSquare = b.enPassantSquare ∧
      m.targetSquare / 8 = if (b.getPieceAt m.startSquare).color = Color.WHITE then 4 else 3)) :
    ∃ b', b.makeMove m = some b' ∧
      (b'.getPieceAt m.startSquare).isEmpty = true ∧
      b'.getPieceAt m.targetSquare =
        ⟨if m.promotionPiece ≠ PieceType.NONE then m.promotionPiece
          else (b.getPieceAt m.startSquare).type,
          (b.getPieceAt m.startSquare).color⟩ := by
  refine ⟨makeMoveResult b m, makeMove_eq b m hs.1 hs.2 ht.1 ht.2, ?_⟩
  obtain ⟨s, t, pr⟩ := m
  simp only at hs ht hne hcap
  have hts : ¬ t = s := fun h => hne h.symm
  have hr : ∀ c : Color, (if c = Color.WHITE then (0 : Int) else 7) = 0 ∨
      (if c = Color.WHITE then (0 : Int) else 7) = 7 := by
    intro c; split_ifs <;> simp
  rw [getPieceAt_eq _ _ hs.1 hs.2] at hcap
  simp only [makeMoveResult, getPieceAt_eq _ _ hs.1 hs.2, getPieceAt_eq _ _ ht.1 ht.2]
  generalize getAt b.squares s = mp at hcap ⊢
  constructor
  · apply getAt_ite_setAt_empty _ _ _ _ hs.1 hs.2
    rw [getAt_ite_setAt_setAt _ _ _ _ _ _ _ hs.1 hs.2
        (by rintro ⟨-, h1, -⟩; rcases hr mp.color with h | h <;>
              simp only [h, squareFromCoords] at h1 ⊢ <;> omega),
      getAt_ite_setAt_setAt _ _ _ _ _ _ _ hs.1 hs.2
        (by rintro ⟨-, h1, -⟩; rcases hr mp.color with h | h <;>
              simp only [h, squareFromCoords] at h1 ⊢ <;> omega),
      getAt_ite_setAt _ _ _ _ _ hs.1 hs.2 (fun _ => hne),
      getAt_setAt _ _ _ _ hs.1 hs.2, if_pos rfl]
    rfl
  · rw [getAt_ite_setAt _ _ _ _ _ ht.1 ht.2
        (by
          rintro ⟨h1, h2⟩ h3
          apply hcap
          refine ⟨h1, h2, ?_⟩
          have ht0 := ht.1
          have ht1 := ht.2
          split_ifs at h3 ⊢ <;> simp only [squareFromCoords] at h3 <;> omega),
      getAt_ite_setAt_setAt _ _ _ _ _ _ _ ht.1 ht.2
        (by rintro ⟨-, -, h2⟩; rcases hr mp.color with h | h <;>
              simp only [h, squareFromCoords] at h2 ⊢ <;> omega),
      getAt_ite_setAt_setAt _ _ _ _ _ _ _ ht.1 ht.2
        (by rintro ⟨-, -, h2⟩; rcases hr mp.color with h | h <;>
              simp only [h, squareFromCoords] at h2 ⊢ <;> omega)]
    split_ifs with hp
    · rw [getAt_setAt _ _ _ _ ht.1 ht.2, if_pos rfl, getAt_setAt _ _ _ _ ht.1 ht.2, if_neg hts,
        getAt_setAt _ _ _ _ ht.1 ht.2, if_pos rfl]
    · rw [getAt_setAt _ _ _ _ ht.1 ht.2, if_neg hts, getAt_setAt _ _ _ _ ht.1 ht.2, if_pos rfl]

/-- Witness of C22 amended: the promotion a7-a8 to a queen. -/
theorem makeMove_relocates_witness :
    ∃ b', pawnBelowRook.makeMove ⟨48, 56, PieceType.QUEEN⟩ = some b' ∧
      (b'.getPieceAt 48).isEmpty = true ∧
      b'.getPieceAt 56 = ⟨PieceType.QUEEN, Color.WHITE⟩ :=
  makeMove_relocates pawnBelowRook ⟨48, 56, PieceType.QUEEN⟩ (by decide) (by decide)
    (by decide) (by decide)

/-- C23: for every position, every occupied square `s` in 0..63 and each of the
two direction tables, the loop of every direction of `generateSlidingMoves` ends
within the eight iterations the model allows (more fuel gives the same list), and
the list returned contains exactly the moves `s -> t`, with promotion none, for
which there are a direction `d` of the table and `k ≥ 1` such that `t` is the
on-board square `k` steps from `s` in direction `d`, the squares at steps
`1..k-1` are empty, and `t` is empty or holds a piece whose colour differs from
that of the piece on `s`; no move occurs twice in the list. -/
theorem generateSlidingMoves_spec (b : Board) (s : Int) (dirs : List (Int × Int))
    (hs : 0 ≤ s ∧ s < 64) (hocc : (b.getPieceAt s).isEmpty = false)
    (hdirs : dirs = bishopDirections ∨ dirs = rookDirections) :
    (∀ (n : Nat), ∀ d ∈ dirs,
      slideRay b s (b.getPieceAt s).color d.1 d.2 (8 + n) (s % 8 + d.1) (s / 8 + d.2) =
        slideRay b s (b.getPieceAt s).color d.1 d.2 8 (s % 8 + d.1) (s / 8 + d.2)) ∧
    (∀ m : Move, m ∈ generateSlidingMoves b s dirs ↔
      ∃ d ∈ dirs, ∃ k : Nat, 1 ≤ k ∧
        isSquareOnBoard (s % 8 + k * d.1) (s / 8 + k * d.2) = true ∧
        (∀ i : Nat, 1 ≤ i → i < k →
          (b.getPieceAt (squareFromCoords (s % 8 + i * d.1) (s / 8 + i * d.2))).isEmpty
            = true) ∧
        ((b.getPieceAt (squareFromCoords (s % 8 + k * d.1) (s / 8 + k * d.2))).isEmpty = true ∨
          (b.getPieceAt (squareFromCoords (s % 8 + k * d.1) (s / 8 + k * d.2))).color ≠
            (b.getPieceAt s).color) ∧
        m = Move.simple s (squareFromCoords (s % 8 + k * d.1) (s / 8 + k * d.2))) ∧
    (generateSlidingMoves b s dirs).Nodup := by
  have _ := hocc
  have hf : 0 ≤ s % 8 ∧ s % 8 < 8 := by omega
  have hr : 0 ≤ s / 8 ∧ s / 8 < 8 := by omega
  have hgen := generateSlidingMoves_eq b s dirs hs.1
  refine ⟨?_, ?_, ?_⟩
  · intro n d hd
    obtain ⟨hdx, hdy, hnz⟩ := direction_unit dirs hdirs d hd
    apply slideRay_fuel
    rw [Bool.eq_false_iff]
    intro hon
    rw [isSquareOnBoard_iff] at hon
    push_cast at hon
    rcases hdx with h | h | h <;> rcases hdy with h' | h' | h' <;>
      rw [h, h'] at hon <;> simp [h, h'] at hnz <;> omega
  · exact mem_generateSlidingMoves b s dirs hs hdirs
  · rw [hgen]
    apply nodup_foldl_append
    · exact List.nodup_nil
    · intro d hd
      obtain ⟨hdx, hdy, hnz⟩ := direction_unit dirs hdirs d hd
      exact slideRay_nodup b s _ d.1 d.2 hdx hdy hnz _ _ _
    · intro d _ m _; exact List.not_mem_nil m
    · have hpair : ∀ d ∈ dirs, ∀ e ∈ dirs, d ≠ e →
          ∀ m ∈ slideRay b s (b.getPieceAt s).color d.1 d.2 8 (s % 8 + d.1) (s / 8 + d.2),
            m ∉ slideRay b s (b.getPieceAt s).color e.1 e.2 8 (s % 8 + e.1) (s / 8 + e.2) := by
        intro d hd e he hne m h1 h2
        obtain ⟨hdx, hdy, -⟩ := direction_unit dirs hdirs d hd
        obtain ⟨hex, hey, -⟩ := direction_unit dirs hdirs e he
        refine slideRay_disjoint b s _ _ _ hf d.1 d.2 e.1 e.2 hdx hdy hex hey ?_ 8 8 m h1 h2
        by_contra hcon
        push_neg at hcon
        exact hne (Prod.ext hcon.1 hcon.2)
      have hnd : dirs.Nodup := by
        rcases hdirs with rfl | rfl <;> decide
      exact (List.Nodup.pairwise_of_forall_ne hnd
        (fun d hd e he hne => hpair d hd e he hne))

/-- Witness of C23: the white rook on a1 facing a black knight on a2, with the
rook directions; no move occurs twice and the capture a1xa2 is returned. -/
theorem generateSlidingMoves_spec_witness :
    (generateSlidingMoves (rookFacing PieceType.KNIGHT) 0 rookDirections).Nodup ∧
      Move.simple 0 8 ∈ generateSlidingMoves (rookFacing PieceType.KNIGHT) 0 rookDirections :=
  ⟨(generateSlidingMoves_spec (rookFacing PieceType.KNIGHT) 0 rookDirections (by decide)
      (by decide) (Or.inr rfl)).2.2,
    ((generateSlidingMoves_spec (rookFacing PieceType.KNIGHT) 0 rookDirections (by decide)
      (by decide) (Or.inr rfl)).2.1 (Move.simple 0 8)).mpr
      ⟨(0, 1), by decide, 1, Nat.le_refl 1, by decide, fun i h1 h2 => absurd h1 (by omega),
        by decide, by decide⟩⟩

/-- C24: for every position and every pawn on a square `s` of the board, every
move returned by `generatePawnMoves` starts on `s` and its target is a single
push (one rank forward on the same file, onto an empty square), a double push (two
ranks forward on the same file from the home rank of the pawn, the skipped square
and the target empty) or a capture (one rank forward on an adjacent file, onto a
square that holds an enemy piece or is the en-passant target); and for every
on-board target of one of these three shapes a move from `s` to it is returned. -/
theorem generatePawnMoves_shapes (b : Board) (s : Int) (hs : 0 ≤ s ∧ s < 64)
    (hpawn : (b.getPieceAt s).type = PieceType.PAWN) :
    (∀ m ∈ generatePawnMoves b s, m.startSquare = s ∧
      (isSinglePush b s m.targetSquare ∨ isDoublePush b s m.targetSquare ∨
        isPawnCapture b s m.targetSquare)) ∧
    (∀ t : Int, isSinglePush b s t ∨ isDoublePush b s t ∨ isPawnCapture b s t →
      ∃ m ∈ generatePawnMoves b s, m.startSquare = s ∧ m.targetSquare = t) := by
  have _ := hpawn
  have _ := hs.2
  exact ⟨fun m hm => generatePawnMoves_sound b s hs.1 m hm,
    fun t ht => generatePawnMoves_complete b s hs.1 t ht⟩

/-- Witness of C24: the pawn on e2 of the starting position; its double push to
e4 is returned. -/
theorem generatePawnMoves_shapes_witness :
    ∃ m ∈ generatePawnMoves startBoard 12, m.startSquare = 12 ∧ m.targetSquare = 28 :=
  (generatePawnMoves_shapes startBoard 12 (by decide) (by decide)).2 28
    (Or.inr (Or.inl (by unfold isDoublePush; decide)))

/-- C25: for every position with the king of colour `c` on its home square (e1
for white, e8 for black), `generateKingMoves` returns a move to the g-file square
of the home rank if and only if the kingside flag of `c` is set and the f- and
g-file squares of that rank are empty, and a move to the c-file square if and only
if the queenside flag of `c` is set and the b-, c- and d-file squares of that rank
are empty. -/
theorem generateKingMoves_castling (b : Board) (c : Color)
    (hking : b.getPieceAt (squareFromCoords 4 (homeRank c)) = ⟨PieceType.KING, c⟩) :
    ((∃ m ∈ generateKingMoves b (squareFromCoords 4 (homeRank c)),
        m.targetSquare = squareFromCoords 6 (homeRank c)) ↔
      ((castlingFlags b c).1 = true ∧
        (b.getPieceAt (squareFromCoords 5 (homeRank c))).isEmpty = true ∧
        (b.getPieceAt (squareFromCoords 6 (homeRank c))).isEmpty = true)) ∧
    ((∃ m ∈ generateKingMoves b (squareFromCoords 4 (homeRank c)),
        m.targetSquare = squareFromCoords 2 (homeRank c)) ↔
      ((castlingFlags b c).2 = true ∧
        (b.getPieceAt (squareFromCoords 1 (homeRank c))).isEmpty = true ∧
        (b.getPieceAt (squareFromCoords 2 (homeRank c))).isEmpty = true ∧
        (b.getPieceAt (squareFromCoords 3 (homeRank c))).isEmpty = true)) := by
  have hoff : ∀ (s f r : Int) (t : Int), (f = 4) → (r = 0 ∨ r = 7) →
      (t = squareFromCoords 6 r ∨ t = squareFromCoords 2 r) →
      ∀ m ∈ offsetMoves b s f r c kingOffsets, m.targetSquare ≠ t := by
    intro s f r t hf hr ht m hm
    rw [mem_offsetMoves] at hm
    obtain ⟨d, hd, -, -, rfl⟩ := hm
    simp only [kingOffsets, List.mem_cons, List.mem_singleton, List.not_mem_nil, or_false] at hd
    simp only [Move.simple, squareFromCoords] at ht ⊢
    rcases hd with rfl | rfl | rfl | rfl | rfl | rfl | rfl | rfl <;>
      rcases hr with rfl | rfl <;> rcases ht with rfl | rfl <;> subst hf <;> simp
  cases c
  · have e : ∀ f : Int, squareFromCoords f (homeRank Color.WHITE) = f := by
      intro f; simp [squareFromCoords, homeRank]
    simp only [e] at hking ⊢
    have hcoords : coordsFromSquare 4 = (4, 0) := by decide
    simp only [generateKingMoves, hcoords, hking, List.mem_append, castlingFlags,
      mem_castlingMoves_white]
    constructor
    · constructor
      · rintro ⟨m, hm | hm, ht⟩
        · exact absurd ht (hoff 4 4 0 6 rfl (Or.inl rfl) (Or.inl rfl) m hm)
        · rcases hm with ⟨h1, h2, h3, -⟩ | ⟨-, -, -, -, rfl⟩
          · exact ⟨h1, h2, h3⟩
          · simp [Move.simple] at ht
      · rintro ⟨h1, h2, h3⟩
        exact ⟨Move.simple 4 6, Or.inr (Or.inl ⟨h1, h2, h3, rfl⟩), rfl⟩
    · constructor
      · rintro ⟨m, hm | hm, ht⟩
        · exact absurd ht (hoff 4 4 0 2 rfl (Or.inl rfl) (Or.inr rfl) m hm)
        · rcases hm with ⟨-, -, -, rfl⟩ | ⟨h1, h2, h3, h4, -⟩
          · simp [Move.simple] at ht
          · exact ⟨h1, h2, h3, h4⟩
      · rintro ⟨h1, h2, h3, h4⟩
        exact ⟨Move.simple 4 2, Or.inr (Or.inr ⟨h1, h2, h3, h4, rfl⟩), rfl⟩
  · have e : ∀ f : Int, squareFromCoords f (homeRank Color.BLACK) = 56 + f := by
      intro f; simp [squareFromCoords, homeRank]
    simp only [e] at hking ⊢
    norm_num at hking ⊢
    have hcoords : coordsFromSquare 60 = (4, 7) := by decide
    simp only [generateKingMoves, hcoords, hking, List.mem_append, castlingFlags,
      mem_castlingMoves_black]
    constructor
    · constructor
      · rintro ⟨m, hm | hm, ht⟩
        · exact absurd ht (hoff 60 4 7 62 rfl (Or.inr rfl) (Or.inl rfl) m hm)
        · rcases hm with ⟨h1, h2, h3, -⟩ | ⟨-, -, -, -, rfl⟩
          · exact ⟨h1, h2, h3⟩
          · simp [Move.simple] at ht
      · rintro ⟨h1, h2, h3⟩
        exact ⟨Move.simple 60 62, Or.inr (Or.inl ⟨h1, h2, h3, rfl⟩), rfl⟩
    · constructor
      · rintro ⟨m, hm | hm, ht⟩
        · exact absurd ht (hoff 60 4 7 58 rfl (Or.inr rfl) (Or.inr rfl) m hm)
        · rcases hm with ⟨-, -, -, rfl⟩ | ⟨h1, h2, h3, h4, -⟩
          · simp [Move.simple] at ht
          · exact ⟨h1, h2, h3, h4⟩
      · rintro ⟨h1, h2, h3, h4⟩
        exact ⟨Move.simple 60 58, Or.inr (Or.inr ⟨h1, h2, h3, h4, rfl⟩), rfl⟩

/-- Witness of C25: the white king of the starting position, on e1. -/
theorem generateKingMoves_castling_witness :
    ((∃ m ∈ generateKingMoves startBoard 4, m.targetSquare = 6) ↔
      ((castlingFlags startBoard Color.WHITE).1 = true ∧
        (startBoard.getPieceAt 5).isEmpty = true ∧ (startBoard.getPieceAt 6).isEmpty = true)) ∧
    ((∃ m ∈ generateKingMoves startBoard 4, m.targetSquare = 2) ↔
      ((castlingFlags startBoard Color.WHITE).2 = true ∧
        (startBoard.getPieceAt 1).isEmpty = true ∧ (startBoard.getPieceAt 2).isEmpty = true ∧
        (startBoard.getPieceAt 3).isEmpty = true)) :=
  generateKingMoves_castling startBoard Color.WHITE (by decide)

/-- C26: for every position and every move with start and target in 0..63 and
start different from target whose moving piece is a knight, a bishop or a queen,
the board returned by `makeMove` has the same piece as before on every square
other than start and target, and the same four castling flags. -/
theorem makeMove_minor_piece_frame (b : Board) (m : Move)
    (hs : 0 ≤ m.startSquare ∧ m.startSquare < 64)
    (ht : 0 ≤ m.targetSquare ∧ m.targetSquare < 64)
    (hne : m.startSquare ≠ m.targetSquare)
    (hkind : (b.getPieceAt m.startSquare).type = PieceType.KNIGHT ∨
      (b.getPieceAt m.startSquare).type = PieceType.BISHOP ∨
      (b.getPieceAt m.startSquare).type = PieceType.QUEEN) :
    ∃ b', b.makeMove m = some b' ∧
      (∀ j : Int, j ≠ m.startSquare → j ≠ m.targetSquare → b'.getPieceAt j = b.getPieceAt j) ∧
      b'.whiteCanCastleKingside = b.whiteCanCastleKingside ∧
      b'.whiteCanCastleQueenside = b.whiteCanCastleQueenside ∧
      b'.blackCanCastleKingside = b.blackCanCastleKingside ∧
      b'.blackCanCastleQueenside = b.blackCanCastleQueenside := by
  have _ := hne
  refine ⟨makeMoveResult b m, makeMove_eq b m hs.1 hs.2 ht.1 ht.2, ?_⟩
  have hk : (b.getPieceAt m.startSquare).type ≠ PieceType.KING := by
    rcases hkind with h | h | h <;> simp [h]
  have hp : (b.getPieceAt m.startSquare).type ≠ PieceType.PAWN := by
    rcases hkind with h | h | h <;> simp [h]
  have hrk : (b.getPieceAt m.startSquare).type ≠ PieceType.ROOK := by
    rcases hkind with h | h | h <;> simp [h]
  simp only [makeMoveResult, hk, hp, hrk, false_and, false_or, and_false, if_false]
  refine ⟨?_, by simp⟩
  intro j hjs hjt
  by_cases hj : 0 ≤ j ∧ j < 64
  · rw [getPieceAt_eq _ _ hj.1 hj.2, getPieceAt_eq _ _ hj.1 hj.2]
    simp only
    rw [getAt_ite_setAt _ _ _ _ _ hj.1 hj.2 (fun _ => hjt), getAt_setAt _ _ _ _ hj.1 hj.2,
      if_neg hjs, getAt_setAt _ _ _ _ hj.1 hj.2, if_neg hjt]
  · simp only [Board.getPieceAt, hj, if_false]

/-- Witness of C26: the knight move g1-f3 on the starting position. -/
theorem makeMove_minor_piece_frame_witness :
    ∃ b', startBoard.makeMove (Move.simple 6 21) = some b' ∧
      (∀ j : Int, j ≠ (Move.simple 6 21).startSquare → j ≠ (Move.simple 6 21).targetSquare →
        b'.getPieceAt j = startBoard.getPieceAt j) ∧
      b'.whiteCanCastleKingside = startBoard.whiteCanCastleKingside ∧
      b'.whiteCanCastleQueenside = startBoard.whiteCanCastleQueenside ∧
      b'.blackCanCastleKingside = startBoard.blackCanCastleKingside ∧
      b'.blackCanCastleQueenside = startBoard.blackCanCastleQueenside :=
  makeMove_minor_piece_frame startBoard (Move.simple 6 21) (by decide) (by decide)
    (by decide) (by decide)

/-- C27: on every position `generateLegalMoves` returns a list, and every move of
it has start and target squares in 0..63, a target different from its start, and
a start square that holds a piece of the side to move; and when the en-passant
target is none (-1) or an empty square of the board, no move of the list has a
target square that holds a piece of the side to move. -/
theorem generateLegalMoves_safe (b : Board) :
    ∃ l, generateLegalMoves b = some l ∧ ∀ m ∈ l,
      (0 ≤ m.startSquare ∧ m.startSquare < 64 ∧ 0 ≤ m.targetSquare ∧ m.targetSquare < 64) ∧
      m.startSquare ≠ m.targetSquare ∧
      ((b.getPieceAt m.startSquare).isEmpty = false ∧
        (b.getPieceAt m.startSquare).color = b.sideToMove) ∧
      ((b.enPassantSquare = -1 ∨
          (0 ≤ b.enPassantSquare ∧ b.enPassantSquare < 64 ∧
            (b.getPieceAt b.enPassantSquare).isEmpty = true)) →
        ¬ ((b.getPieceAt m.targetSquare).isEmpty = false ∧
          (b.getPieceAt m.targetSquare).color = b.sideToMove)) := by
  refine ⟨legalMovesList b, generateLegalMoves_eq b, ?_⟩
  unfold legalMovesList
  apply foldl_moves_forall
  · intro acc i hi hacc m hm
    have hi' : i < 64 := List.mem_range.mp hi
    have hs : (0 : Int) ≤ (i : Int) ∧ (i : Int) < 64 := by omega
    simp only at hm
    split_ifs at hm with hskip
    · exact hacc m hm
    · rcases List.mem_append.mp hm with h | h
      · exact hacc m h
      · have hmem := List.mem_of_mem_filter h
        simp only [Bool.or_eq_true, decide_eq_true_eq, not_or, Bool.not_eq_true,
          Decidable.not_not, Board.getSideToMove] at hskip
        obtain ⟨hocc, hcol⟩ := hskip
        have hin := pieceMovesAt_inRange b _ _ hs.1 hs.2 m hmem
        obtain ⟨h1, h2, h3⟩ := pieceMovesAt_good b _ hs hocc m hmem
        refine ⟨hin, ?_, ?_, ?_⟩
        · rw [h1]; exact fun h => h2 h.symm
        · rw [h1]; exact ⟨hocc, hcol⟩
        · intro hep
          have hep' : (b.getPieceAt b.enPassantSquare).isEmpty = true := by
            rcases hep with h | ⟨-, -, h⟩
            · rw [h]; rfl
            · exact h
          rintro ⟨hne, hc⟩
          rcases h3 hep' with h | h
          · rw [h] at hne; exact absurd hne (by decide)
          · exact h (hc.trans hcol.symm)
  · intro m hm; exact absurd hm (List.not_mem_nil _)

/-- Witness of C27: the starting position, whose en-passant target is none. -/
theorem generateLegalMoves_safe_witness :
    ∃ l, generateLegalMoves startBoard = some l ∧ ∀ m ∈ l,
      m.startSquare ≠ m.targetSquare ∧
      ¬ ((startBoard.getPieceAt m.targetSquare).isEmpty = false ∧
        (startBoard.getPieceAt m.targetSquare).color = startBoard.sideToMove) := by
  obtain ⟨l, hl, h⟩ := generateLegalMoves_safe startBoard
  exact ⟨l, hl, fun m hm => ⟨(h m hm).2.1, (h m hm).2.2.2 (Or.inl rfl)⟩⟩

/-- After g1-f3 and g8-f6 from the starting position `toFen` writes rank 8 as
`rnbqkb11r`, on which the placement loop of `loadFromFen` reaches file 8 on rank
index 7, the index 64, which is no square of the board; the statements after the
loop assign white to move, all four castling flags, no en-passant target and an
empty history. -/
theorem toFen_twoKnights :
    twoKnightsBoard.toFen =
        "rnbqkb11r/pppppppp/55n2/8/8/55N2/PPPPPPPP/RNBQKB11R w KQkq - 0 1".toList ∧
      ("rnbqkb11".toList.foldlM placeChar ((fun _ => Piece.empty), 7, 0)).map
        (fun st => (st.2.1, st.2.2, squareFromCoords st.2.2 st.2.1)) = some (7, 8, 64) ∧
      (loadFromFenAfterLoop (fun _ => Piece.empty) twoKnightsBoard.toFen).map
          (fun b => (b.sideToMove, b.enPassantSquare, b.moveHistory.length)) =
        some (Color.WHITE, -1, 0) ∧
      (loadFromFenAfterLoop (fun _ => Piece.empty) twoKnightsBoard.toFen).map
          (fun b => [b.whiteCanCastleKingside, b.whiteCanCastleQueenside,
            b.blackCanCastleKingside, b.blackCanCastleQueenside]) =
        some [true, true, true, true] := by
  decide!

end ChessBot
